import Mathlib

/-!
Formal model of the side-bets settlement engine of this repository.

The primary implementation is `computeDeltas` in `src/src/App.tsx`; the
variant implementation lives in `src/unnamed/part_000` and is modelled in
the `Part000` namespace.  JavaScript numbers are modelled by `ℚ`; an empty
score field (the string `""`) is modelled by `none : Option ℚ`; the
in-place array mutations `deltas[hi][aj] += v` of the source become the
explicit list update `addAt`.
-/

/-- Team assignment of one player slot for one hole (`"T1" | "T2" | "Sit"`). -/
inductive TeamPick
  | T1
  | T2
  | Sit
  deriving DecidableEq, Repr

/-- Match settings from `src/src/App.tsx` (`type Settings`). -/
structure Settings where
  wager : ℚ
  carryOver : Bool
  soloDouble : Bool
  birdieDouble : Bool
  eagleTriple : Bool
  deriving DecidableEq, Repr

/-- One hole's state from `src/src/App.tsx` (`type HoleState`).  `par = none`
models the empty-string par field; `scores` entries of `none` model empty
score fields. -/
structure HoleState where
  par : Option ℚ
  teamPicks : List TeamPick
  scores : List (Option ℚ)
  deriving DecidableEq, Repr

/-- Active slot indices: slots whose name is nonempty after trimming
(`playersAll.forEach((p, i) => { if (p.trim() !== "") activeIdx.push(i) })`). -/
def activeIdxOf (playersAll : List String) : List ℕ :=
  (List.range playersAll.length).filter fun i => (playersAll.getD i "").trim ≠ ""

/-- The team pick of the active player `aj` (`hole.teamPicks[activeIdx[aj]]`);
an out-of-range access sits the player out. -/
def pickAt (picks : List TeamPick) (activeIdx : List ℕ) (aj : ℕ) : TeamPick :=
  picks.getD (activeIdx.getD aj 0) TeamPick.Sit

/-- The recorded score of the active player `aj` (`hole.scores[activeIdx[aj]]`). -/
def scoreAt (scores : List (Option ℚ)) (activeIdx : List ℕ) (aj : ℕ) : Option ℚ :=
  scores.getD (activeIdx.getD aj 0) none

/-- The (dense) active indices picked onto team `t` for the hole
(the `t1` / `t2` arrays built by the per-hole loop in `computeDeltas`). -/
def teamIdxs (picks : List TeamPick) (activeIdx : List ℕ) (t : TeamPick) : List ℕ :=
  (List.range activeIdx.length).filter fun aj => pickAt picks activeIdx aj = t

/-- Par substitution of `src/src/App.tsx` lines 124–127: a numeric par that is
at least 3 is used as given, everything else (including the empty field)
falls back to 4. -/
def parOfHole : Option ℚ → ℚ
  | none => 4
  | some v => if 3 ≤ v then v else 4

/-- `stakeForScore` from `src/src/App.tsx`: wager × (1 + carry if carry-over)
× multiplier, with multiplier 3 on `rel ≤ -2` (eagle) and 2 on `rel = -1`
(birdie). -/
def stakeForScore (s : Settings) (par : ℚ) (carry : ℕ) (winningBest : ℚ) : ℚ :=
  let baseUnits : ℚ := 1 + (if s.carryOver then (carry : ℚ) else 0)
  let rel : ℚ := winningBest - par
  let mult : ℚ :=
    if s.eagleTriple ∧ rel ≤ -2 then 3
    else if s.birdieDouble ∧ rel = -1 then 2
    else 1
  s.wager * baseUnits * mult

/-- `teamBest`: minimum recorded score of the team's members; `none` when no
member has a recorded score (the source's `Infinity`). -/
def teamBest (scores : List (Option ℚ)) (activeIdx : List ℕ) (team : List ℕ) : Option ℚ :=
  team.foldl
    (fun best aj =>
      match scoreAt scores activeIdx aj, best with
      | none, b => b
      | some v, none => some v
      | some v, some b => if v < b then some v else some b)
    none

/-- Add `c` to entry `i` of a row (the source's `deltas[hi][i] += c`). -/
def addAt : List ℚ → ℕ → ℚ → List ℚ
  | [], _, _ => []
  | x :: xs, 0, c => (x + c) :: xs
  | x :: xs, n + 1, c => x :: addAt xs n c

/-- Fold a constant increment over a list of indices
(`for (const aj of team) deltas[hi][aj] += c`). -/
def foldAdd (c : ℚ) (idxs : List ℕ) (row : List ℚ) : List ℚ :=
  idxs.foldl (fun r a => addAt r a c) row

/-- The individual-mode payout loop of `src/src/App.tsx` lines 185–189: for
each participant other than the winner, subtract the stake from them and add
it to the winner. -/
def indPayout (winner : ℕ) (stake : ℚ) (participants : List ℕ) (row : List ℚ) : List ℚ :=
  participants.foldl
    (fun r aj => if aj = winner then r else addAt (addAt r aj (-stake)) winner stake) row

/-- The group sharing all active players in individual mode
(`participants = t1.length ? t1 : t2`). -/
def indParticipants (picks : List TeamPick) (activeIdx : List ℕ) : List ℕ :=
  if teamIdxs picks activeIdx TeamPick.T1 ≠ [] then teamIdxs picks activeIdx TeamPick.T1
  else teamIdxs picks activeIdx TeamPick.T2

/-- The participants holding the minimum recorded score (`bestList`). -/
def bestHolders (picks : List TeamPick) (scores : List (Option ℚ))
    (activeIdx : List ℕ) (best : ℚ) : List ℕ :=
  (indParticipants picks activeIdx).filter fun aj => scoreAt scores activeIdx aj = some best

/-- `W >= L ? stake : stake * (L / W)` from `src/src/App.tsx` line 213. -/
def perWinnerGainFn (stake : ℚ) (W L : ℕ) : ℚ :=
  if L ≤ W then stake else stake * ((L : ℚ) / (W : ℚ))

/-- `W > L ? stake * (W / L) : stake` from `src/src/App.tsx` line 214. -/
def perLoserLossFn (stake : ℚ) (W L : ℕ) : ℚ :=
  if L < W then stake * ((W : ℚ) / (L : ℚ)) else stake

/-- The solo-double factor (`if (settings.soloDouble && (W === 1 && L >= 2))`
both per-player amounts are doubled). -/
def dblFactor (s : Settings) (W L : ℕ) : ℚ :=
  if s.soloDouble ∧ W = 1 ∧ 2 ≤ L then 2 else 1

/-- The winning team of a decisive two-sided hole (`best1 < best2 ? t1 : t2`). -/
def winnersOf (picks : List TeamPick) (activeIdx : List ℕ) (b1 b2 : ℚ) : List ℕ :=
  if b1 < b2 then teamIdxs picks activeIdx TeamPick.T1 else teamIdxs picks activeIdx TeamPick.T2

/-- The losing team of a decisive two-sided hole (`best1 < best2 ? t2 : t1`). -/
def losersOf (picks : List TeamPick) (activeIdx : List ℕ) (b1 b2 : ℚ) : List ℕ :=
  if b1 < b2 then teamIdxs picks activeIdx TeamPick.T2 else teamIdxs picks activeIdx TeamPick.T1

/-- The two-sided payout loops of `src/src/App.tsx` lines 222–223: each winner
gains `dbl × perWinnerGain`, each loser pays `dbl × perLoserLoss`. -/
def teamPayout (s : Settings) (n : ℕ) (winners losers : List ℕ) (stake : ℚ) : List ℚ :=
  foldAdd (-(dblFactor s winners.length losers.length *
      perLoserLossFn stake winners.length losers.length)) losers
    (foldAdd (dblFactor s winners.length losers.length *
        perWinnerGainFn stake winners.length losers.length) winners
      (List.replicate n 0))

/-- Individual-mode settlement (the `onlyOneTeam` branch of `computeDeltas`,
`src/src/App.tsx` lines 161–191): void when nobody recorded a score, tie
(carry extended) unless the minimum holder is unique, else full-stake
transfer from every other participant to the winner. -/
def settleIndividual (s : Settings) (activeIdx : List ℕ) (carry : ℕ) (hole : HoleState) :
    List ℚ × ℕ :=
  match teamBest hole.scores activeIdx (indParticipants hole.teamPicks activeIdx) with
  | none => (List.replicate activeIdx.length 0, carry)
  | some best =>
    if (bestHolders hole.teamPicks hole.scores activeIdx best).length = 1 then
      (indPayout ((bestHolders hole.teamPicks hole.scores activeIdx best).headD 0)
        (stakeForScore s (parOfHole hole.par) carry best)
        (indParticipants hole.teamPicks activeIdx)
        (List.replicate activeIdx.length 0), 0)
    else
      (List.replicate activeIdx.length 0, if s.carryOver then carry + 1 else carry)

/-- Two-sided settlement (`src/src/App.tsx` lines 196–225): void when either
team has no recorded score, tie (carry extended) on equal bests, else the
uneven-split payout at the winning best's stake. -/
def settleTeams (s : Settings) (activeIdx : List ℕ) (carry : ℕ) (hole : HoleState) :
    List ℚ × ℕ :=
  match teamBest hole.scores activeIdx (teamIdxs hole.teamPicks activeIdx TeamPick.T1),
      teamBest hole.scores activeIdx (teamIdxs hole.teamPicks activeIdx TeamPick.T2) with
  | some b1, some b2 =>
    if b1 = b2 then
      (List.replicate activeIdx.length 0, if s.carryOver then carry + 1 else carry)
    else
      (teamPayout s activeIdx.length
        (winnersOf hole.teamPicks activeIdx b1 b2)
        (losersOf hole.teamPicks activeIdx b1 b2)
        (stakeForScore s (parOfHole hole.par) carry (min b1 b2)), 0)
  | _, _ => (List.replicate activeIdx.length 0, carry)

/-- One iteration of the hole loop of `computeDeltas`: produces the hole's
delta row and the updated carry counter. -/
def settleHole (s : Settings) (activeIdx : List ℕ) (carry : ℕ) (hole : HoleState) :
    List ℚ × ℕ :=
  if (teamIdxs hole.teamPicks activeIdx TeamPick.T1 ≠ [] ∧
        teamIdxs hole.teamPicks activeIdx TeamPick.T2 = []) ∨
      (teamIdxs hole.teamPicks activeIdx TeamPick.T2 ≠ [] ∧
        teamIdxs hole.teamPicks activeIdx TeamPick.T1 = []) then
    settleIndividual s activeIdx carry hole
  else if teamIdxs hole.teamPicks activeIdx TeamPick.T1 = [] ∨
      teamIdxs hole.teamPicks activeIdx TeamPick.T2 = [] then
    (List.replicate activeIdx.length 0, carry)
  else
    settleTeams s activeIdx carry hole

/-- The hole loop: threads only the carry counter between holes. -/
def computeDeltasAux (s : Settings) (activeIdx : List ℕ) : ℕ → List HoleState → List (List ℚ)
  | _, [] => []
  | carry, hole :: holes =>
    (settleHole s activeIdx carry hole).1 ::
      computeDeltasAux s activeIdx (settleHole s activeIdx carry hole).2 holes

/-- Column-wise accumulation of the delta matrix into totals. -/
def totalsOf (deltas : List (List ℚ)) (n : ℕ) : List ℚ :=
  deltas.foldl (fun acc row => acc.zipWith (· + ·) row) (List.replicate n 0)

/-- Result record of `computeDeltas` (`return { deltas, totals, activeIdx }`). -/
structure DeltasResult where
  deltas : List (List ℚ)
  totals : List ℚ
  activeIdx : List ℕ
  deriving DecidableEq, Repr

/-- `computeDeltas` from `src/src/App.tsx` lines 111–232. -/
def computeDeltas (holes : List HoleState) (s : Settings) (playersAll : List String) :
    DeltasResult :=
  { deltas := computeDeltasAux s (activeIdxOf playersAll) 0 holes
    totals := totalsOf (computeDeltasAux s (activeIdxOf playersAll) 0 holes)
      (activeIdxOf playersAll).length
    activeIdx := activeIdxOf playersAll }

/-! ### Basic lemmas about the row-update operations -/

theorem addAt_length (l : List ℚ) (i : ℕ) (c : ℚ) : (addAt l i c).length = l.length := by
  induction l generalizing i with
  | nil => rfl
  | cons x xs ih =>
    cases i with
    | zero => rfl
    | succ n => simp [addAt, ih]

theorem addAt_sum (l : List ℚ) (i : ℕ) (c : ℚ) (h : i < l.length) :
    (addAt l i c).sum = l.sum + c := by
  induction l generalizing i with
  | nil => simp at h
  | cons x xs ih =>
    cases i with
    | zero => simp [addAt]; ring
    | succ n =>
      have hn : n < xs.length := by simpa using h
      simp [addAt, ih n hn]; ring

theorem addAt_getD (l : List ℚ) (i : ℕ) (c : ℚ) (j : ℕ) :
    (addAt l i c).getD j 0 = l.getD j 0 + (if j = i ∧ j < l.length then c else 0) := by
  induction l generalizing i j with
  | nil => simp [addAt]
  | cons x xs ih =>
    cases i with
    | zero =>
      cases j with
      | zero => simp [addAt]
      | succ m => simp [addAt]
    | succ n =>
      cases j with
      | zero => simp [addAt]
      | succ m => simpa [addAt, Nat.succ_lt_succ_iff] using ih n m

theorem foldAdd_nil (c : ℚ) (r : List ℚ) : foldAdd c [] r = r := rfl

theorem foldAdd_cons (c : ℚ) (a : ℕ) (P : List ℕ) (r : List ℚ) :
    foldAdd c (a :: P) r = foldAdd c P (addAt r a c) := rfl

theorem foldAdd_length (c : ℚ) (P : List ℕ) (r : List ℚ) :
    (foldAdd c P r).length = r.length := by
  induction P generalizing r with
  | nil => rfl
  | cons a P ih => rw [foldAdd_cons, ih, addAt_length]

theorem foldAdd_getD (c : ℚ) (P : List ℕ) (r : List ℚ) (j : ℕ) :
    (foldAdd c P r).getD j 0 =
      r.getD j 0 + (if j < r.length then c * P.count j else 0) := by
  induction P generalizing r with
  | nil => simp [foldAdd]
  | cons a P ih =>
    rw [foldAdd_cons, ih, addAt_getD, addAt_length]
    by_cases hja : j = a
    · subst hja
      by_cases hj : j < r.length
      · simp [hj, List.count_cons]
        ring
      · simp [hj]
    · by_cases hj : j < r.length
      · simp [hj, hja, List.count_cons]
      · simp [hj]

theorem foldAdd_sum (c : ℚ) (P : List ℕ) (r : List ℚ) (h : ∀ a ∈ P, a < r.length) :
    (foldAdd c P r).sum = r.sum + c * P.length := by
  induction P generalizing r with
  | nil => simp [foldAdd]
  | cons a P ih =>
    have hmem : ∀ b ∈ P, b < (addAt r a c).length := by
      intro b hb
      rw [addAt_length]
      exact h b (List.mem_cons_of_mem a hb)
    rw [foldAdd_cons, ih _ hmem, addAt_sum r a c (h a (List.mem_cons_self a P))]
    push_cast [List.length_cons]
    ring

theorem indPayout_nil (w : ℕ) (stake : ℚ) (r : List ℚ) : indPayout w stake [] r = r := rfl

theorem indPayout_cons (w : ℕ) (stake : ℚ) (a : ℕ) (P : List ℕ) (r : List ℚ) :
    indPayout w stake (a :: P) r =
      indPayout w stake P (if a = w then r else addAt (addAt r a (-stake)) w stake) := rfl

theorem indPayout_length (w : ℕ) (stake : ℚ) (P : List ℕ) (r : List ℚ) :
    (indPayout w stake P r).length = r.length := by
  induction P generalizing r with
  | nil => rfl
  | cons a P ih =>
    rw [indPayout_cons]
    by_cases haw : a = w
    · rw [if_pos haw, ih]
    · rw [if_neg haw, ih, addAt_length, addAt_length]

theorem indPayout_getD_winner (w : ℕ) (stake : ℚ) (P : List ℕ) (r : List ℚ) :
    (indPayout w stake P r).getD w 0 =
      r.getD w 0 +
        (if w < r.length then stake * (P.filter fun a => a ≠ w).length else 0) := by
  induction P generalizing r with
  | nil => simp [indPayout]
  | cons a P ih =>
    rw [indPayout_cons]
    by_cases haw : a = w
    · rw [if_pos haw, ih]
      simp [List.filter_cons, haw]
    · rw [if_neg haw, ih, addAt_length, addAt_length, addAt_getD, addAt_getD, addAt_length]
      by_cases hw : w < r.length
      · simp [hw, Ne.symm haw, List.filter_cons, haw]
        ring
      · simp [hw, Ne.symm haw, List.filter_cons, haw]

theorem indPayout_getD_other (w : ℕ) (stake : ℚ) (P : List ℕ) (r : List ℚ) (j : ℕ)
    (hjw : j ≠ w) :
    (indPayout w stake P r).getD j 0 =
      r.getD j 0 - (if j < r.length then stake * P.count j else 0) := by
  induction P generalizing r with
  | nil => simp [indPayout]
  | cons a P ih =>
    rw [indPayout_cons]
    by_cases haw : a = w
    · rw [if_pos haw, ih r]
      have hja : ¬ j = a := by rw [haw]; exact hjw
      simp [List.count_cons, hja]
    · rw [if_neg haw, ih (addAt (addAt r a (-stake)) w stake), addAt_length, addAt_length,
        addAt_getD, addAt_getD, addAt_length]
      by_cases hja : j = a
      · subst hja
        by_cases hj : j < r.length
        · simp [hj, hjw, List.count_cons]
          ring
        · simp [hj]
      · by_cases hj : j < r.length
        · simp [hj, hja, hjw, List.count_cons]
        · simp [hj]

theorem indPayout_sum (w : ℕ) (stake : ℚ) (P : List ℕ) (r : List ℚ)
    (hw : w < r.length) (hP : ∀ a ∈ P, a < r.length) :
    (indPayout w stake P r).sum = r.sum := by
  induction P generalizing r with
  | nil => rfl
  | cons a P ih =>
    rw [indPayout_cons]
    by_cases haw : a = w
    · rw [if_pos haw]
      exact ih r hw fun b hb => hP b (List.mem_cons_of_mem a hb)
    · rw [if_neg haw]
      have ha : a < r.length := hP a (List.mem_cons_self a P)
      have hw2 : w < (addAt (addAt r a (-stake)) w stake).length := by
        rw [addAt_length, addAt_length]
        exact hw
      have hw1 : w < (addAt r a (-stake)).length := by
        rw [addAt_length]
        exact hw
      have hmem : ∀ b ∈ P, b < (addAt (addAt r a (-stake)) w stake).length := by
        intro b hb
        rw [addAt_length, addAt_length]
        exact hP b (List.mem_cons_of_mem a hb)
      rw [ih _ hw2 hmem, addAt_sum _ _ _ hw1, addAt_sum _ _ _ ha]
      ring

theorem sum_zipWith_add (a b : List ℚ) (h : a.length = b.length) :
    (a.zipWith (· + ·) b).sum = a.sum + b.sum := by
  induction a generalizing b with
  | nil =>
    cases b with
    | nil => simp
    | cons y ys => simp at h
  | cons x xs ih =>
    cases b with
    | nil => simp at h
    | cons y ys =>
      have := ih ys (by simpa using h)
      simp [this]
      ring

theorem foldl_zip_sum (rows : List (List ℚ)) (acc : List ℚ)
    (h : ∀ r ∈ rows, r.length = acc.length) :
    (rows.foldl (fun a r => a.zipWith (· + ·) r) acc).sum
      = acc.sum + (rows.map List.sum).sum := by
  induction rows generalizing acc with
  | nil => simp
  | cons r rows ih =>
    have hr : r.length = acc.length := h r (List.mem_cons_self r rows)
    have hlen : (acc.zipWith (· + ·) r).length = acc.length := by
      simp [List.length_zipWith, hr]
    rw [List.foldl_cons,
      ih _ (fun q hq => by rw [hlen]; exact h q (List.mem_cons_of_mem r hq)),
      sum_zipWith_add acc r hr.symm]
    simp
    ring

/-! ### Structure of the team lists -/

theorem teamIdxs_nodup (picks : List TeamPick) (aIdx : List ℕ) (t : TeamPick) :
    (teamIdxs picks aIdx t).Nodup :=
  List.Nodup.filter _ (List.nodup_range _)

theorem teamIdxs_mem (picks : List TeamPick) (aIdx : List ℕ) (t : TeamPick) (aj : ℕ) :
    aj ∈ teamIdxs picks aIdx t ↔ aj < aIdx.length ∧ pickAt picks aIdx aj = t := by
  simp [teamIdxs, List.mem_filter, List.mem_range]

theorem teamIdxs_disjoint (picks : List TeamPick) (aIdx : List ℕ) (t t' : TeamPick)
    (hne : t ≠ t') (aj : ℕ) (h : aj ∈ teamIdxs picks aIdx t) :
    aj ∉ teamIdxs picks aIdx t' := by
  intro h'
  exact hne (((teamIdxs_mem picks aIdx t aj).mp h).2.symm.trans
    ((teamIdxs_mem picks aIdx t' aj).mp h').2)

theorem indParticipants_nodup (picks : List TeamPick) (aIdx : List ℕ) :
    (indParticipants picks aIdx).Nodup := by
  unfold indParticipants
  split <;> exact teamIdxs_nodup _ _ _

theorem indParticipants_mem_lt (picks : List TeamPick) (aIdx : List ℕ) (aj : ℕ)
    (h : aj ∈ indParticipants picks aIdx) : aj < aIdx.length := by
  unfold indParticipants at h
  split at h <;> exact ((teamIdxs_mem _ _ _ _).mp h).1

theorem bestHolders_subset (picks : List TeamPick) (scores : List (Option ℚ))
    (aIdx : List ℕ) (best : ℚ) :
    bestHolders picks scores aIdx best ⊆ indParticipants picks aIdx := by
  intro a ha
  exact (List.mem_filter.mp ha).1

theorem winnersOf_mem_lt (picks : List TeamPick) (aIdx : List ℕ) (b1 b2 : ℚ) (aj : ℕ)
    (h : aj ∈ winnersOf picks aIdx b1 b2) : aj < aIdx.length := by
  unfold winnersOf at h
  split at h <;> exact ((teamIdxs_mem _ _ _ _).mp h).1

theorem losersOf_mem_lt (picks : List TeamPick) (aIdx : List ℕ) (b1 b2 : ℚ) (aj : ℕ)
    (h : aj ∈ losersOf picks aIdx b1 b2) : aj < aIdx.length := by
  unfold losersOf at h
  split at h <;> exact ((teamIdxs_mem _ _ _ _).mp h).1

theorem winnersOf_ne_nil (picks : List TeamPick) (aIdx : List ℕ) (b1 b2 : ℚ)
    (h1 : teamIdxs picks aIdx TeamPick.T1 ≠ []) (h2 : teamIdxs picks aIdx TeamPick.T2 ≠ []) :
    winnersOf picks aIdx b1 b2 ≠ [] := by
  unfold winnersOf
  split <;> assumption

theorem losersOf_ne_nil (picks : List TeamPick) (aIdx : List ℕ) (b1 b2 : ℚ)
    (h1 : teamIdxs picks aIdx TeamPick.T1 ≠ []) (h2 : teamIdxs picks aIdx TeamPick.T2 ≠ []) :
    losersOf picks aIdx b1 b2 ≠ [] := by
  unfold losersOf
  split <;> assumption

/-! ### The zero-sum identity of the uneven team split -/

theorem perGain_mul_eq (stake : ℚ) (W L : ℕ) (hW : 1 ≤ W) (hL : 1 ≤ L) :
    perWinnerGainFn stake W L * W = perLoserLossFn stake W L * L := by
  have hW0 : (W : ℚ) ≠ 0 := Nat.cast_ne_zero.mpr (by omega)
  have hL0 : (L : ℚ) ≠ 0 := Nat.cast_ne_zero.mpr (by omega)
  unfold perWinnerGainFn perLoserLossFn
  rcases lt_trichotomy L W with h | h | h
  · rw [if_pos h.le, if_pos h]
    field_simp
  · subst h
    rw [if_pos le_rfl, if_neg (lt_irrefl L)]
  · rw [if_neg (not_le.mpr h), if_neg (not_lt.mpr h.le)]
    field_simp

/-! ### Row length and row sum of a settled hole -/

theorem teamPayout_length (s : Settings) (n : ℕ) (winners losers : List ℕ) (stake : ℚ) :
    (teamPayout s n winners losers stake).length = n := by
  unfold teamPayout
  rw [foldAdd_length, foldAdd_length, List.length_replicate]

theorem teamPayout_sum (s : Settings) (n : ℕ) (winners losers : List ℕ) (stake : ℚ)
    (hW : winners ≠ []) (hL : losers ≠ [])
    (hWm : ∀ a ∈ winners, a < n) (hLm : ∀ a ∈ losers, a < n) :
    (teamPayout s n winners losers stake).sum = 0 := by
  have hW1 : 1 ≤ winners.length := List.length_pos.mpr hW
  have hL1 : 1 ≤ losers.length := List.length_pos.mpr hL
  have hinner : ∀ a ∈ winners, a < (List.replicate n (0 : ℚ)).length := by
    intro a ha
    rw [List.length_replicate]
    exact hWm a ha
  have houter : ∀ a ∈ losers,
      a < (foldAdd (dblFactor s winners.length losers.length *
        perWinnerGainFn stake winners.length losers.length) winners
          (List.replicate n (0 : ℚ))).length := by
    intro a ha
    rw [foldAdd_length, List.length_replicate]
    exact hLm a ha
  unfold teamPayout
  rw [foldAdd_sum _ _ _ houter, foldAdd_sum _ _ _ hinner]
  have key := perGain_mul_eq stake winners.length losers.length hW1 hL1
  simp only [List.sum_replicate, smul_zero]
  linear_combination dblFactor s winners.length losers.length * key

theorem settleIndividual_length (s : Settings) (aIdx : List ℕ) (c : ℕ) (hole : HoleState) :
    (settleIndividual s aIdx c hole).1.length = aIdx.length := by
  unfold settleIndividual
  split
  · simp
  · split
    · simp [indPayout_length]
    · simp

theorem settleIndividual_sum (s : Settings) (aIdx : List ℕ) (c : ℕ) (hole : HoleState) :
    (settleIndividual s aIdx c hole).1.sum = 0 := by
  unfold settleIndividual
  split
  · simp
  · rename_i best heq
    split
    · rename_i h1
      obtain ⟨w, hw⟩ := List.length_eq_one.mp h1
      have hwmem : w ∈ indParticipants hole.teamPicks aIdx :=
        bestHolders_subset _ _ _ _ (hw ▸ List.mem_singleton_self w)
      have hwlt : w < (List.replicate aIdx.length (0 : ℚ)).length := by
        rw [List.length_replicate]
        exact indParticipants_mem_lt _ _ _ hwmem
      have hmem : ∀ a ∈ indParticipants hole.teamPicks aIdx,
          a < (List.replicate aIdx.length (0 : ℚ)).length := by
        intro a ha
        rw [List.length_replicate]
        exact indParticipants_mem_lt _ _ _ ha
      rw [hw]
      simp only [List.headD_cons]
      rw [indPayout_sum w _ _ _ hwlt hmem]
      simp
    · simp

theorem settleTeams_length (s : Settings) (aIdx : List ℕ) (c : ℕ) (hole : HoleState) :
    (settleTeams s aIdx c hole).1.length = aIdx.length := by
  unfold settleTeams
  split
  · split
    · simp
    · simp [teamPayout_length]
  · simp

theorem settleTeams_sum (s : Settings) (aIdx : List ℕ) (c : ℕ) (hole : HoleState)
    (h1 : teamIdxs hole.teamPicks aIdx TeamPick.T1 ≠ [])
    (h2 : teamIdxs hole.teamPicks aIdx TeamPick.T2 ≠ []) :
    (settleTeams s aIdx c hole).1.sum = 0 := by
  unfold settleTeams
  split
  · rename_i b1 b2 hb1 hb2
    split
    · simp
    · simp only
      exact teamPayout_sum s aIdx.length _ _ _
        (winnersOf_ne_nil _ _ _ _ h1 h2) (losersOf_ne_nil _ _ _ _ h1 h2)
        (fun a ha => winnersOf_mem_lt _ _ _ _ _ ha)
        (fun a ha => losersOf_mem_lt _ _ _ _ _ ha)
  · simp

theorem settleHole_length (s : Settings) (aIdx : List ℕ) (c : ℕ) (hole : HoleState) :
    (settleHole s aIdx c hole).1.length = aIdx.length := by
  unfold settleHole
  split
  · exact settleIndividual_length s aIdx c hole
  · split
    · simp
    · exact settleTeams_length s aIdx c hole

theorem settleHole_sum (s : Settings) (aIdx : List ℕ) (c : ℕ) (hole : HoleState) :
    (settleHole s aIdx c hole).1.sum = 0 := by
  unfold settleHole
  split
  · exact settleIndividual_sum s aIdx c hole
  · rename_i hnot
    split
    · simp
    · rename_i hor
      push_neg at hor
      exact settleTeams_sum s aIdx c hole hor.1 hor.2

/-! ### Branch reduction lemmas for settleHole -/

theorem settleHole_onlyOne (s : Settings) (aIdx : List ℕ) (c : ℕ) (hole : HoleState)
    (h : (teamIdxs hole.teamPicks aIdx TeamPick.T1 ≠ [] ∧
          teamIdxs hole.teamPicks aIdx TeamPick.T2 = []) ∨
         (teamIdxs hole.teamPicks aIdx TeamPick.T2 ≠ [] ∧
          teamIdxs hole.teamPicks aIdx TeamPick.T1 = [])) :
    settleHole s aIdx c hole = settleIndividual s aIdx c hole := by
  unfold settleHole
  rw [if_pos h]

theorem settleHole_bothTeams (s : Settings) (aIdx : List ℕ) (c : ℕ) (hole : HoleState)
    (h1 : teamIdxs hole.teamPicks aIdx TeamPick.T1 ≠ [])
    (h2 : teamIdxs hole.teamPicks aIdx TeamPick.T2 ≠ []) :
    settleHole s aIdx c hole = settleTeams s aIdx c hole := by
  have hA : ¬ ((teamIdxs hole.teamPicks aIdx TeamPick.T1 ≠ [] ∧
        teamIdxs hole.teamPicks aIdx TeamPick.T2 = []) ∨
      (teamIdxs hole.teamPicks aIdx TeamPick.T2 ≠ [] ∧
        teamIdxs hole.teamPicks aIdx TeamPick.T1 = [])) := by
    simp [h1, h2]
  have hB : ¬ (teamIdxs hole.teamPicks aIdx TeamPick.T1 = [] ∨
      teamIdxs hole.teamPicks aIdx TeamPick.T2 = []) := by
    simp [h1, h2]
  unfold settleHole
  rw [if_neg hA, if_neg hB]

theorem settleHole_degenerate (s : Settings) (aIdx : List ℕ) (c : ℕ) (hole : HoleState)
    (h1 : teamIdxs hole.teamPicks aIdx TeamPick.T1 = [])
    (h2 : teamIdxs hole.teamPicks aIdx TeamPick.T2 = []) :
    settleHole s aIdx c hole = (List.replicate aIdx.length 0, c) := by
  have hA : ¬ ((teamIdxs hole.teamPicks aIdx TeamPick.T1 ≠ [] ∧
        teamIdxs hole.teamPicks aIdx TeamPick.T2 = []) ∨
      (teamIdxs hole.teamPicks aIdx TeamPick.T2 ≠ [] ∧
        teamIdxs hole.teamPicks aIdx TeamPick.T1 = [])) := by
    simp [h1, h2]
  unfold settleHole
  rw [if_neg hA, if_pos (Or.inl h1)]

theorem settleIndividual_void (s : Settings) (aIdx : List ℕ) (c : ℕ) (hole : HoleState)
    (hb : teamBest hole.scores aIdx (indParticipants hole.teamPicks aIdx) = none) :
    settleIndividual s aIdx c hole = (List.replicate aIdx.length 0, c) := by
  unfold settleIndividual
  rw [hb]

theorem settleIndividual_tie (s : Settings) (aIdx : List ℕ) (c : ℕ) (hole : HoleState)
    (best : ℚ)
    (hbest : teamBest hole.scores aIdx (indParticipants hole.teamPicks aIdx) = some best)
    (hlen : (bestHolders hole.teamPicks hole.scores aIdx best).length ≠ 1) :
    settleIndividual s aIdx c hole =
      (List.replicate aIdx.length 0, if s.carryOver then c + 1 else c) := by
  unfold settleIndividual
  rw [hbest]
  simp [hlen]

theorem settleIndividual_settled (s : Settings) (aIdx : List ℕ) (c : ℕ) (hole : HoleState)
    (best : ℚ) (w : ℕ)
    (hbest : teamBest hole.scores aIdx (indParticipants hole.teamPicks aIdx) = some best)
    (hw : bestHolders hole.teamPicks hole.scores aIdx best = [w]) :
    settleIndividual s aIdx c hole =
      (indPayout w (stakeForScore s (parOfHole hole.par) c best)
        (indParticipants hole.teamPicks aIdx) (List.replicate aIdx.length 0), 0) := by
  unfold settleIndividual
  rw [hbest]
  simp [hw]

theorem settleTeams_void (s : Settings) (aIdx : List ℕ) (c : ℕ) (hole : HoleState)
    (hb : teamBest hole.scores aIdx (teamIdxs hole.teamPicks aIdx TeamPick.T1) = none ∨
          teamBest hole.scores aIdx (teamIdxs hole.teamPicks aIdx TeamPick.T2) = none) :
    settleTeams s aIdx c hole = (List.replicate aIdx.length 0, c) := by
  unfold settleTeams
  rcases hb with hb | hb
  · rw [hb]
  · rw [hb]
    rcases teamBest hole.scores aIdx (teamIdxs hole.teamPicks aIdx TeamPick.T1)
      with _ | b1 <;> rfl

theorem settleTeams_tie (s : Settings) (aIdx : List ℕ) (c : ℕ) (hole : HoleState) (b : ℚ)
    (hb1 : teamBest hole.scores aIdx (teamIdxs hole.teamPicks aIdx TeamPick.T1) = some b)
    (hb2 : teamBest hole.scores aIdx (teamIdxs hole.teamPicks aIdx TeamPick.T2) = some b) :
    settleTeams s aIdx c hole =
      (List.replicate aIdx.length 0, if s.carryOver then c + 1 else c) := by
  unfold settleTeams
  rw [hb1, hb2]
  simp

theorem settleTeams_settled (s : Settings) (aIdx : List ℕ) (c : ℕ) (hole : HoleState)
    (b1 b2 : ℚ)
    (hb1 : teamBest hole.scores aIdx (teamIdxs hole.teamPicks aIdx TeamPick.T1) = some b1)
    (hb2 : teamBest hole.scores aIdx (teamIdxs hole.teamPicks aIdx TeamPick.T2) = some b2)
    (hne : b1 ≠ b2) :
    settleTeams s aIdx c hole =
      (teamPayout s aIdx.length (winnersOf hole.teamPicks aIdx b1 b2)
        (losersOf hole.teamPicks aIdx b1 b2)
        (stakeForScore s (parOfHole hole.par) c (min b1 b2)), 0) := by
  unfold settleTeams
  rw [hb1, hb2]
  simp [hne]

/-! ### The hole loop -/

theorem computeDeltasAux_nil (s : Settings) (aIdx : List ℕ) (c : ℕ) :
    computeDeltasAux s aIdx c [] = [] := rfl

theorem computeDeltasAux_cons (s : Settings) (aIdx : List ℕ) (c : ℕ) (hole : HoleState)
    (holes : List HoleState) :
    computeDeltasAux s aIdx c (hole :: holes) =
      (settleHole s aIdx c hole).1 ::
        computeDeltasAux s aIdx (settleHole s aIdx c hole).2 holes := rfl

theorem computeDeltasAux_length (s : Settings) (aIdx : List ℕ) (c : ℕ)
    (holes : List HoleState) :
    (computeDeltasAux s aIdx c holes).length = holes.length := by
  induction holes generalizing c with
  | nil => rfl
  | cons hole holes ih => rw [computeDeltasAux_cons, List.length_cons, ih, List.length_cons]

theorem computeDeltasAux_mem (s : Settings) (aIdx : List ℕ) (c : ℕ)
    (holes : List HoleState) (r : List ℚ) (h : r ∈ computeDeltasAux s aIdx c holes) :
    r.length = aIdx.length ∧ r.sum = 0 := by
  induction holes generalizing c with
  | nil => simp [computeDeltasAux_nil] at h
  | cons hole holes ih =>
    rw [computeDeltasAux_cons] at h
    rcases List.mem_cons.mp h with h | h
    · subst h
      exact ⟨settleHole_length s aIdx c hole, settleHole_sum s aIdx c hole⟩
    · exact ih _ h

/-- Claim C1: every row of the delta matrix returned by `computeDeltas` sums to
0 (exactly, hence within the spec's 1e-6 tolerance) — in particular for every
decisively settled round — and the totals vector always sums to 0. -/
theorem zero_sum_rows_and_totals (holes : List HoleState) (s : Settings)
    (players : List String) :
    (computeDeltas holes s players).deltas.map List.sum = List.replicate holes.length 0 ∧
    (computeDeltas holes s players).totals.sum = 0 := by
  constructor
  · rw [List.eq_replicate_iff]
    constructor
    · rw [List.length_map]
      exact computeDeltasAux_length s _ 0 holes
    · intro b hb
      obtain ⟨r, hr, rfl⟩ := List.mem_map.mp hb
      exact (computeDeltasAux_mem s _ 0 holes r hr).2
  · show (totalsOf (computeDeltasAux s (activeIdxOf players) 0 holes)
      (activeIdxOf players).length).sum = 0
    unfold totalsOf
    rw [foldl_zip_sum _ _ (fun r hr => by
      rw [List.length_replicate]
      exact (computeDeltasAux_mem s _ 0 holes r hr).1)]
    rw [List.sum_replicate, smul_zero, zero_add]
    apply List.sum_eq_zero
    intro x hx
    obtain ⟨r, hr, rfl⟩ := List.mem_map.mp hx
    exact (computeDeltasAux_mem s _ 0 holes r hr).2

/-- The stake multiplier as §4.4 of the spec words it: 3 when the triple
option is on and the winning best is at least two below target, else 2 when
the double option is on and the winning best is exactly one below target,
else 1.  Spec-side definition, compared against `stakeForScore`. -/
def specMultiplier (s : Settings) (target winningBest : ℚ) : ℚ :=
  if s.eagleTriple ∧ winningBest ≤ target - 2 then 3
  else if s.birdieDouble ∧ winningBest = target - 1 then 2
  else 1

/-- Claim C2: the stake of a decisive round is wager × (1 + carry when
carry-over is on) × multiplier, where the multiplier follows the spec's
triple-before-double precedence, is 1 whenever the winning best is not
strictly below target, and depends only on the winning side's best value. -/
theorem stake_formula (s : Settings) (target : ℚ) (carry : ℕ) (winningBest : ℚ) :
    stakeForScore s target carry winningBest =
      s.wager * (1 + (if s.carryOver then (carry : ℚ) else 0)) *
        specMultiplier s target winningBest ∧
    (s.eagleTriple = true → s.birdieDouble = true → winningBest ≤ target - 2 →
      specMultiplier s target winningBest = 3) ∧
    (target ≤ winningBest → specMultiplier s target winningBest = 1) := by
  refine ⟨?_, ?_, ?_⟩
  · unfold stakeForScore specMultiplier
    have h1 : (winningBest - target ≤ -2) ↔ (winningBest ≤ target - 2) := by
      constructor <;> intro <;> linarith
    have h2 : (winningBest - target = -1) ↔ (winningBest = target - 1) := by
      constructor <;> intro h <;> linarith
    simp only [h1, h2]
  · intro he _ h3
    unfold specMultiplier
    rw [if_pos ⟨he, h3⟩]
  · intro h
    have c1 : ¬ (s.eagleTriple = true ∧ winningBest ≤ target - 2) := by
      rintro ⟨-, hh⟩
      linarith
    have c2 : ¬ (s.birdieDouble = true ∧ winningBest = target - 1) := by
      rintro ⟨-, hh⟩
      rw [hh] at h
      linarith
    unfold specMultiplier
    rw [if_neg c1, if_neg c2]

/-- Sample settings used by the concrete witnesses below. -/
def sampleSettings : Settings :=
  { wager := 1, carryOver := false, soloDouble := false, birdieDouble := true,
    eagleTriple := true }

/-- Witness for C2 at a concrete eagle and a concrete at-target input. -/
theorem stake_formula_witness :
    (stakeForScore sampleSettings 4 0 2 =
      sampleSettings.wager * (1 + (if sampleSettings.carryOver then ((0 : ℕ) : ℚ) else 0)) *
        specMultiplier sampleSettings 4 2) ∧
    specMultiplier sampleSettings 4 2 = 3 ∧
    specMultiplier sampleSettings 5 6 = 1 :=
  ⟨(stake_formula sampleSettings 4 0 2).1,
   (stake_formula sampleSettings 4 0 2).2.1 rfl rfl (by norm_num),
   (stake_formula sampleSettings 5 0 6).2.2 (by norm_num)⟩

/-! ### Entry values of settled rows -/

theorem getD_replicate_zero (n j : ℕ) : (List.replicate n (0 : ℚ)).getD j 0 = 0 := by
  induction n generalizing j with
  | zero => cases j <;> rfl
  | succ n ih =>
    cases j with
    | zero => rfl
    | succ m => exact ih m

theorem winnersOf_nodup (picks : List TeamPick) (aIdx : List ℕ) (b1 b2 : ℚ) :
    (winnersOf picks aIdx b1 b2).Nodup := by
  unfold winnersOf
  split <;> exact teamIdxs_nodup _ _ _

theorem losersOf_nodup (picks : List TeamPick) (aIdx : List ℕ) (b1 b2 : ℚ) :
    (losersOf picks aIdx b1 b2).Nodup := by
  unfold losersOf
  split <;> exact teamIdxs_nodup _ _ _

theorem winnersOf_not_mem_losersOf (picks : List TeamPick) (aIdx : List ℕ) (b1 b2 : ℚ)
    (aj : ℕ) (h : aj ∈ winnersOf picks aIdx b1 b2) : aj ∉ losersOf picks aIdx b1 b2 := by
  unfold winnersOf at h
  unfold losersOf
  by_cases hb : b1 < b2
  · rw [if_pos hb] at h
    rw [if_pos hb]
    exact teamIdxs_disjoint picks aIdx TeamPick.T1 TeamPick.T2 (by decide) aj h
  · rw [if_neg hb] at h
    rw [if_neg hb]
    exact teamIdxs_disjoint picks aIdx TeamPick.T2 TeamPick.T1 (by decide) aj h

theorem losersOf_not_mem_winnersOf (picks : List TeamPick) (aIdx : List ℕ) (b1 b2 : ℚ)
    (aj : ℕ) (h : aj ∈ losersOf picks aIdx b1 b2) : aj ∉ winnersOf picks aIdx b1 b2 := by
  unfold losersOf at h
  unfold winnersOf
  by_cases hb : b1 < b2
  · rw [if_pos hb] at h
    rw [if_pos hb]
    exact teamIdxs_disjoint picks aIdx TeamPick.T2 TeamPick.T1 (by decide) aj h
  · rw [if_neg hb] at h
    rw [if_neg hb]
    exact teamIdxs_disjoint picks aIdx TeamPick.T1 TeamPick.T2 (by decide) aj h

theorem teamPayout_getD_winner (s : Settings) (n : ℕ) (winners losers : List ℕ) (stake : ℚ)
    (aj : ℕ) (hmem : aj ∈ winners) (hnd : winners.Nodup) (hdis : aj ∉ losers) (hlt : aj < n) :
    (teamPayout s n winners losers stake).getD aj 0 =
      dblFactor s winners.length losers.length *
        perWinnerGainFn stake winners.length losers.length := by
  unfold teamPayout
  rw [foldAdd_getD, foldAdd_getD, foldAdd_length, List.length_replicate, getD_replicate_zero,
    List.count_eq_one_of_mem hnd hmem, List.count_eq_zero_of_not_mem hdis]
  simp [hlt]

theorem teamPayout_getD_loser (s : Settings) (n : ℕ) (winners losers : List ℕ) (stake : ℚ)
    (aj : ℕ) (hmem : aj ∈ losers) (hnd : losers.Nodup) (hdis : aj ∉ winners) (hlt : aj < n) :
    (teamPayout s n winners losers stake).getD aj 0 =
      -(dblFactor s winners.length losers.length *
        perLoserLossFn stake winners.length losers.length) := by
  unfold teamPayout
  rw [foldAdd_getD, foldAdd_getD, foldAdd_length, List.length_replicate, getD_replicate_zero,
    List.count_eq_one_of_mem hnd hmem, List.count_eq_zero_of_not_mem hdis]
  simp [hlt]

theorem teamPayout_getD_outside (s : Settings) (n : ℕ) (winners losers : List ℕ) (stake : ℚ)
    (aj : ℕ) (hw : aj ∉ winners) (hl : aj ∉ losers) :
    (teamPayout s n winners losers stake).getD aj 0 = 0 := by
  unfold teamPayout
  rw [foldAdd_getD, foldAdd_getD, foldAdd_length, List.length_replicate, getD_replicate_zero,
    List.count_eq_zero_of_not_mem hw, List.count_eq_zero_of_not_mem hl]
  simp

theorem filter_ne_length (P : List ℕ) (w : ℕ) (hnd : P.Nodup) (hmem : w ∈ P) :
    (P.filter fun a => a ≠ w).length = P.length - 1 := by
  induction P with
  | nil => simp at hmem
  | cons a P ih =>
    rcases List.mem_cons.mp hmem with rfl | hmem'
    · have hP : w ∉ P := (List.nodup_cons.mp hnd).1
      have hfil : P.filter (fun a => a ≠ w) = P := by
        apply List.filter_eq_self.mpr
        intro b hb
        have hbw : b ≠ w := fun hbw => hP (hbw ▸ hb)
        simpa using hbw
      rw [List.filter_cons, if_neg (by simp), hfil, List.length_cons]
      omega
    · have ha : a ≠ w := by
        rintro rfl
        exact (List.nodup_cons.mp hnd).1 hmem'
      have hlen := ih (List.nodup_cons.mp hnd).2 hmem'
      have hpos : 1 ≤ P.length := List.length_pos.mpr (List.ne_nil_of_mem hmem')
      rw [List.filter_cons, if_pos (by simpa using ha), List.length_cons, List.length_cons,
        hlen]
      omega

/-- Claim C3: in a two-sided decisively settled round, before any minority-win
doubling (solo-double disabled) each winner's delta is `stake` when `W ≥ L`
and `stake × (L/W)` when `W < L` (that is `perWinnerGainFn`), each loser's
delta is `-stake × (W/L)` when `W > L` and `-stake` otherwise (that is
`perLoserLossFn`), and total gains equal total losses for every `W, L ≥ 1`. -/
theorem team_uneven_split (s : Settings) (aIdx : List ℕ) (c : ℕ) (hole : HoleState)
    (b1 b2 : ℚ)
    (h1 : teamIdxs hole.teamPicks aIdx TeamPick.T1 ≠ [])
    (h2 : teamIdxs hole.teamPicks aIdx TeamPick.T2 ≠ [])
    (hb1 : teamBest hole.scores aIdx (teamIdxs hole.teamPicks aIdx TeamPick.T1) = some b1)
    (hb2 : teamBest hole.scores aIdx (teamIdxs hole.teamPicks aIdx TeamPick.T2) = some b2)
    (hne : b1 ≠ b2) (hsolo : s.soloDouble = false) :
    (∀ aj ∈ winnersOf hole.teamPicks aIdx b1 b2,
      (settleHole s aIdx c hole).1.getD aj 0 =
        perWinnerGainFn (stakeForScore s (parOfHole hole.par) c (min b1 b2))
          (winnersOf hole.teamPicks aIdx b1 b2).length
          (losersOf hole.teamPicks aIdx b1 b2).length) ∧
    (∀ aj ∈ losersOf hole.teamPicks aIdx b1 b2,
      (settleHole s aIdx c hole).1.getD aj 0 =
        -(perLoserLossFn (stakeForScore s (parOfHole hole.par) c (min b1 b2))
          (winnersOf hole.teamPicks aIdx b1 b2).length
          (losersOf hole.teamPicks aIdx b1 b2).length)) ∧
    (∀ (stk : ℚ) (W L : ℕ), 1 ≤ W → 1 ≤ L →
      perWinnerGainFn stk W L * W = perLoserLossFn stk W L * L) := by
  rw [settleHole_bothTeams s aIdx c hole h1 h2,
    settleTeams_settled s aIdx c hole b1 b2 hb1 hb2 hne]
  dsimp only
  have hd : dblFactor s (winnersOf hole.teamPicks aIdx b1 b2).length
      (losersOf hole.teamPicks aIdx b1 b2).length = 1 := by
    unfold dblFactor
    rw [if_neg]
    rintro ⟨hs, -⟩
    rw [hsolo] at hs
    exact Bool.false_ne_true hs
  refine ⟨?_, ?_, ?_⟩
  · intro aj hmem
    rw [teamPayout_getD_winner s aIdx.length _ _ _ aj hmem (winnersOf_nodup _ _ _ _)
      (winnersOf_not_mem_losersOf _ _ _ _ aj hmem) (winnersOf_mem_lt _ _ _ _ aj hmem),
      hd, one_mul]
  · intro aj hmem
    rw [teamPayout_getD_loser s aIdx.length _ _ _ aj hmem (losersOf_nodup _ _ _ _)
      (losersOf_not_mem_winnersOf _ _ _ _ aj hmem) (losersOf_mem_lt _ _ _ _ aj hmem),
      hd, one_mul]
  · exact fun stk W L hW hL => perGain_mul_eq stk W L hW hL

/-- Concrete two-sided hole: player 0 on T1 (score 3), players 1, 2 on T2
(scores 5, 6), par 4. -/
def twoSidedHole : HoleState :=
  { par := some 4, teamPicks := [TeamPick.T1, TeamPick.T2, TeamPick.T2],
    scores := [some 3, some 5, some 6] }

/-- Witness for C3 on the concrete 1-vs-2 hole. -/
theorem team_uneven_split_witness :
    (settleHole sampleSettings [0, 1, 2] 0 twoSidedHole).1.getD 0 0 =
      perWinnerGainFn (stakeForScore sampleSettings (parOfHole twoSidedHole.par) 0 (min 3 5))
        (winnersOf twoSidedHole.teamPicks [0, 1, 2] 3 5).length
        (losersOf twoSidedHole.teamPicks [0, 1, 2] 3 5).length ∧
    (settleHole sampleSettings [0, 1, 2] 0 twoSidedHole).1.getD 1 0 =
      -(perLoserLossFn (stakeForScore sampleSettings (parOfHole twoSidedHole.par) 0 (min 3 5))
        (winnersOf twoSidedHole.teamPicks [0, 1, 2] 3 5).length
        (losersOf twoSidedHole.teamPicks [0, 1, 2] 3 5).length) := by
  have h := team_uneven_split sampleSettings [0, 1, 2] 0 twoSidedHole 3 5
    (by decide) (by decide) (by decide) (by decide) (by decide) rfl
  exact ⟨h.1 0 (by decide), h.2.1 1 (by decide)⟩

/-- Claim C8: in a two-sided decisively settled round, both per-player amounts
are multiplied by 2 exactly when the minority-win option is enabled, the
winning group has exactly one member, and the losing group has two or more;
in every other configuration the factor is 1. -/
theorem minority_double_rule (s : Settings) (aIdx : List ℕ) (c : ℕ) (hole : HoleState)
    (b1 b2 : ℚ)
    (h1 : teamIdxs hole.teamPicks aIdx TeamPick.T1 ≠ [])
    (h2 : teamIdxs hole.teamPicks aIdx TeamPick.T2 ≠ [])
    (hb1 : teamBest hole.scores aIdx (teamIdxs hole.teamPicks aIdx TeamPick.T1) = some b1)
    (hb2 : teamBest hole.scores aIdx (teamIdxs hole.teamPicks aIdx TeamPick.T2) = some b2)
    (hne : b1 ≠ b2) :
    (∀ aj ∈ winnersOf hole.teamPicks aIdx b1 b2,
      (settleHole s aIdx c hole).1.getD aj 0 =
        (if s.soloDouble = true ∧ (winnersOf hole.teamPicks aIdx b1 b2).length = 1 ∧
            2 ≤ (losersOf hole.teamPicks aIdx b1 b2).length then (2 : ℚ) else 1) *
          perWinnerGainFn (stakeForScore s (parOfHole hole.par) c (min b1 b2))
            (winnersOf hole.teamPicks aIdx b1 b2).length
            (losersOf hole.teamPicks aIdx b1 b2).length) ∧
    (∀ aj ∈ losersOf hole.teamPicks aIdx b1 b2,
      (settleHole s aIdx c hole).1.getD aj 0 =
        -((if s.soloDouble = true ∧ (winnersOf hole.teamPicks aIdx b1 b2).length = 1 ∧
            2 ≤ (losersOf hole.teamPicks aIdx b1 b2).length then (2 : ℚ) else 1) *
          perLoserLossFn (stakeForScore s (parOfHole hole.par) c (min b1 b2))
            (winnersOf hole.teamPicks aIdx b1 b2).length
            (losersOf hole.teamPicks aIdx b1 b2).length)) := by
  rw [settleHole_bothTeams s aIdx c hole h1 h2,
    settleTeams_settled s aIdx c hole b1 b2 hb1 hb2 hne]
  dsimp only
  constructor
  · intro aj hmem
    rw [teamPayout_getD_winner s aIdx.length _ _ _ aj hmem (winnersOf_nodup _ _ _ _)
      (winnersOf_not_mem_losersOf _ _ _ _ aj hmem) (winnersOf_mem_lt _ _ _ _ aj hmem)]
    unfold dblFactor
    rfl
  · intro aj hmem
    rw [teamPayout_getD_loser s aIdx.length _ _ _ aj hmem (losersOf_nodup _ _ _ _)
      (losersOf_not_mem_winnersOf _ _ _ _ aj hmem) (losersOf_mem_lt _ _ _ _ aj hmem)]
    unfold dblFactor
    rfl

/-- Settings with the minority-win doubling enabled. -/
def soloSettings : Settings :=
  { wager := 1, carryOver := false, soloDouble := true, birdieDouble := false,
    eagleTriple := false }

/-- Witness for C8: the 1-vs-2 hole with solo-double enabled. -/
theorem minority_double_rule_witness :
    (settleHole soloSettings [0, 1, 2] 0 twoSidedHole).1.getD 0 0 =
      (if soloSettings.soloDouble = true ∧
          (winnersOf twoSidedHole.teamPicks [0, 1, 2] 3 5).length = 1 ∧
          2 ≤ (losersOf twoSidedHole.teamPicks [0, 1, 2] 3 5).length then (2 : ℚ) else 1) *
        perWinnerGainFn (stakeForScore soloSettings (parOfHole twoSidedHole.par) 0 (min 3 5))
          (winnersOf twoSidedHole.teamPicks [0, 1, 2] 3 5).length
          (losersOf twoSidedHole.teamPicks [0, 1, 2] 3 5).length := by
  have h := minority_double_rule soloSettings [0, 1, 2] 0 twoSidedHole 3 5
    (by decide) (by decide) (by decide) (by decide) (by decide)
  exact h.1 0 (by decide)

/-- Claim C4: in an individual-mode round with a unique minimum holder, the
winner's delta is `stake × (number of other members of the populated group)`,
every other member of the populated group (scoreless members included) pays
exactly the full stake, and every active participant outside the populated
group gets exactly 0. -/
theorem individual_full_transfer (s : Settings) (aIdx : List ℕ) (c : ℕ) (hole : HoleState)
    (best : ℚ) (w : ℕ)
    (honly : (teamIdxs hole.teamPicks aIdx TeamPick.T1 ≠ [] ∧
              teamIdxs hole.teamPicks aIdx TeamPick.T2 = []) ∨
             (teamIdxs hole.teamPicks aIdx TeamPick.T2 ≠ [] ∧
              teamIdxs hole.teamPicks aIdx TeamPick.T1 = []))
    (hbest : teamBest hole.scores aIdx (indParticipants hole.teamPicks aIdx) = some best)
    (hw : bestHolders hole.teamPicks hole.scores aIdx best = [w]) :
    (settleHole s aIdx c hole).1.getD w 0 =
      stakeForScore s (parOfHole hole.par) c best *
        (((indParticipants hole.teamPicks aIdx).length - 1 : ℕ) : ℚ) ∧
    (∀ aj ∈ indParticipants hole.teamPicks aIdx, aj ≠ w →
      (settleHole s aIdx c hole).1.getD aj 0 =
        -(stakeForScore s (parOfHole hole.par) c best)) ∧
    (∀ aj, aj < aIdx.length → aj ∉ indParticipants hole.teamPicks aIdx →
      (settleHole s aIdx c hole).1.getD aj 0 = 0) := by
  have hwmem : w ∈ indParticipants hole.teamPicks aIdx :=
    bestHolders_subset _ _ _ _ (hw ▸ List.mem_singleton_self w)
  have hwlt : w < aIdx.length := indParticipants_mem_lt _ _ _ hwmem
  rw [settleHole_onlyOne s aIdx c hole honly,
    settleIndividual_settled s aIdx c hole best w hbest hw]
  dsimp only
  refine ⟨?_, ?_, ?_⟩
  · rw [indPayout_getD_winner, getD_replicate_zero, List.length_replicate,
      filter_ne_length _ _ (indParticipants_nodup _ _) hwmem]
    simp [hwlt]
  · intro aj hmem hne
    rw [indPayout_getD_other _ _ _ _ _ hne, getD_replicate_zero, List.length_replicate,
      List.count_eq_one_of_mem (indParticipants_nodup _ _) hmem]
    simp [indParticipants_mem_lt _ _ _ hmem]
  · intro aj hlt hnmem
    have hne : aj ≠ w := fun h => hnmem (h ▸ hwmem)
    rw [indPayout_getD_other _ _ _ _ _ hne, getD_replicate_zero, List.length_replicate,
      List.count_eq_zero_of_not_mem hnmem]
    simp

/-- Concrete individual-mode hole: players 0,1,2 all on T1 with scores 3, 4 and
no score; player 3 sits out with a recorded score of 1. -/
def indHole : HoleState :=
  { par := some 4,
    teamPicks := [TeamPick.T1, TeamPick.T1, TeamPick.T1, TeamPick.Sit],
    scores := [some 3, some 4, none, some 1] }

/-- Witness for C4 on the concrete individual-mode hole. -/
theorem individual_full_transfer_witness :
    (settleHole sampleSettings [0, 1, 2, 3] 0 indHole).1.getD 0 0 =
      stakeForScore sampleSettings (parOfHole indHole.par) 0 3 *
        (((indParticipants indHole.teamPicks [0, 1, 2, 3]).length - 1 : ℕ) : ℚ) ∧
    (settleHole sampleSettings [0, 1, 2, 3] 0 indHole).1.getD 2 0 =
      -(stakeForScore sampleSettings (parOfHole indHole.par) 0 3) ∧
    (settleHole sampleSettings [0, 1, 2, 3] 0 indHole).1.getD 3 0 = 0 := by
  have h := individual_full_transfer sampleSettings [0, 1, 2, 3] 0 indHole 3 0
    (by decide) (by decide) (by decide)
  exact ⟨h.1, h.2.1 2 (by decide) (by decide), h.2.2 3 (by decide) (by decide)⟩

/-- Claim C6: a void round — a populated individual-mode group with no
recorded values, or a two-sided round where either team has no recorded
values — produces the all-zero delta row and leaves the carry unchanged. -/
theorem void_round_zero (s : Settings) (aIdx : List ℕ) (c : ℕ) (hole : HoleState)
    (h : (((teamIdxs hole.teamPicks aIdx TeamPick.T1 ≠ [] ∧
            teamIdxs hole.teamPicks aIdx TeamPick.T2 = []) ∨
           (teamIdxs hole.teamPicks aIdx TeamPick.T2 ≠ [] ∧
            teamIdxs hole.teamPicks aIdx TeamPick.T1 = [])) ∧
          teamBest hole.scores aIdx (indParticipants hole.teamPicks aIdx) = none) ∨
         (teamIdxs hole.teamPicks aIdx TeamPick.T1 ≠ [] ∧
          teamIdxs hole.teamPicks aIdx TeamPick.T2 ≠ [] ∧
          (teamBest hole.scores aIdx (teamIdxs hole.teamPicks aIdx TeamPick.T1) = none ∨
           teamBest hole.scores aIdx (teamIdxs hole.teamPicks aIdx TeamPick.T2) = none))) :
    settleHole s aIdx c hole = (List.replicate aIdx.length 0, c) := by
  rcases h with ⟨honly, hb⟩ | ⟨h1, h2, hb⟩
  · rw [settleHole_onlyOne s aIdx c hole honly, settleIndividual_void s aIdx c hole hb]
  · rw [settleHole_bothTeams s aIdx c hole h1 h2, settleTeams_void s aIdx c hole hb]

/-- Concrete void hole: both active players on T1, neither with a score. -/
def voidHole : HoleState :=
  { par := some 4, teamPicks := [TeamPick.T1, TeamPick.T1], scores := [none, none] }

/-- Witness for C6 on the concrete void hole: zero row, carry 5 untouched. -/
theorem void_round_zero_witness :
    settleHole sampleSettings [0, 1] 5 voidHole = (List.replicate 2 0, 5) :=
  void_round_zero sampleSettings [0, 1] 5 voidHole (Or.inl ⟨by decide, by decide⟩)

/-- Classification of one round, mirroring the branch structure of the hole
loop of `computeDeltas`: individual mode (void / tie / settled by unique
minimum), degenerate (both teams empty), or two-sided (void / tie / settled). -/
inductive RoundKind
  | settled
  | tie
  | voidRound
  | degenerate
  deriving DecidableEq, Repr

/-- Round classifier derived from the hole loop's conditions. -/
def classifyRound (aIdx : List ℕ) (hole : HoleState) : RoundKind :=
  if (teamIdxs hole.teamPicks aIdx TeamPick.T1 ≠ [] ∧
        teamIdxs hole.teamPicks aIdx TeamPick.T2 = []) ∨
      (teamIdxs hole.teamPicks aIdx TeamPick.T2 ≠ [] ∧
        teamIdxs hole.teamPicks aIdx TeamPick.T1 = []) then
    match teamBest hole.scores aIdx (indParticipants hole.teamPicks aIdx) with
    | none => RoundKind.voidRound
    | some best =>
      if (bestHolders hole.teamPicks hole.scores aIdx best).length = 1 then RoundKind.settled
      else RoundKind.tie
  else if teamIdxs hole.teamPicks aIdx TeamPick.T1 = [] ∨
      teamIdxs hole.teamPicks aIdx TeamPick.T2 = [] then
    RoundKind.degenerate
  else
    match teamBest hole.scores aIdx (teamIdxs hole.teamPicks aIdx TeamPick.T1),
        teamBest hole.scores aIdx (teamIdxs hole.teamPicks aIdx TeamPick.T2) with
    | some b1, some b2 => if b1 = b2 then RoundKind.tie else RoundKind.settled
    | _, _ => RoundKind.voidRound

/-- Claim C5 (amended): the carry counter starts at 0, is incremented by 1 on
every tie round when carry-over is enabled, is left unchanged on void and
degenerate rounds, and is reset to 0 on every settled round; it is the only
state threaded between holes. -/
theorem carry_evolution (s : Settings) (aIdx : List ℕ) (c : ℕ) (hole : HoleState)
    (holes : List HoleState) (players : List String) :
    ((settleHole s aIdx c hole).2 =
      match classifyRound aIdx hole with
      | RoundKind.tie => if s.carryOver then c + 1 else c
      | RoundKind.settled => 0
      | RoundKind.voidRound => c
      | RoundKind.degenerate => c) ∧
    computeDeltasAux s aIdx c (hole :: holes) =
      (settleHole s aIdx c hole).1 ::
        computeDeltasAux s aIdx (settleHole s aIdx c hole).2 holes ∧
    (computeDeltas holes s players).deltas = computeDeltasAux s (activeIdxOf players) 0 holes := by
  refine ⟨?_, rfl, rfl⟩
  by_cases honly : (teamIdxs hole.teamPicks aIdx TeamPick.T1 ≠ [] ∧
      teamIdxs hole.teamPicks aIdx TeamPick.T2 = []) ∨
      (teamIdxs hole.teamPicks aIdx TeamPick.T2 ≠ [] ∧
      teamIdxs hole.teamPicks aIdx TeamPick.T1 = [])
  · rw [settleHole_onlyOne s aIdx c hole honly]
    unfold classifyRound
    rw [if_pos honly]
    cases hb : teamBest hole.scores aIdx (indParticipants hole.teamPicks aIdx) with
    | none => rw [settleIndividual_void s aIdx c hole hb]
    | some best =>
      by_cases hlen : (bestHolders hole.teamPicks hole.scores aIdx best).length = 1
      · obtain ⟨w, hw⟩ := List.length_eq_one.mp hlen
        rw [settleIndividual_settled s aIdx c hole best w hb hw]
        simp [hlen]
      · rw [settleIndividual_tie s aIdx c hole best hb hlen]
        simp [hlen]
  · by_cases hdeg : teamIdxs hole.teamPicks aIdx TeamPick.T1 = [] ∨
        teamIdxs hole.teamPicks aIdx TeamPick.T2 = []
    · have hboth : teamIdxs hole.teamPicks aIdx TeamPick.T1 = [] ∧
          teamIdxs hole.teamPicks aIdx TeamPick.T2 = [] := by
        rcases hdeg with h | h
        · by_cases h2 : teamIdxs hole.teamPicks aIdx TeamPick.T2 = []
          · exact ⟨h, h2⟩
          · exact absurd (Or.inr ⟨h2, h⟩) honly
        · by_cases h1 : teamIdxs hole.teamPicks aIdx TeamPick.T1 = []
          · exact ⟨h1, h⟩
          · exact absurd (Or.inl ⟨h1, h⟩) honly
      rw [settleHole_degenerate s aIdx c hole hboth.1 hboth.2]
      unfold classifyRound
      rw [if_neg honly, if_pos hdeg]
    · push_neg at hdeg
      rw [settleHole_bothTeams s aIdx c hole hdeg.1 hdeg.2]
      unfold classifyRound
      rw [if_neg honly, if_neg (by simp [hdeg.1, hdeg.2])]
      cases hb1 : teamBest hole.scores aIdx (teamIdxs hole.teamPicks aIdx TeamPick.T1) with
      | none => rw [settleTeams_void s aIdx c hole (Or.inl hb1)]
      | some b1 =>
        cases hb2 : teamBest hole.scores aIdx (teamIdxs hole.teamPicks aIdx TeamPick.T2) with
        | none => rw [settleTeams_void s aIdx c hole (Or.inr hb2)]
        | some b2 =>
          by_cases heq : b1 = b2
          · subst heq
            rw [settleTeams_tie s aIdx c hole b1 hb1 hb2]
            simp
          · rw [settleTeams_settled s aIdx c hole b1 b2 hb1 hb2 heq]
            simp [heq]

/-- Settings with carry-over enabled, used by the C5 counterexample. -/
def carrySettings : Settings :=
  { wager := 1, carryOver := true, soloDouble := false, birdieDouble := false,
    eagleTriple := false }

/-- Counterexample to C5 as stated: a void round with carry-over enabled
leaves the carry counter at 0 — it is not incremented to 1 as the claim
requires for "every tie or void round". -/
theorem carry_not_incremented_on_void :
    classifyRound [0, 1] voidHole = RoundKind.voidRound ∧
    carrySettings.carryOver = true ∧
    (settleHole carrySettings [0, 1] 0 voidHole).2 = 0 ∧
    (0 : ℕ) ≠ 1 := by
  refine ⟨by decide, rfl, ?_, by decide⟩
  rw [settleHole_onlyOne carrySettings [0, 1] 0 voidHole (Or.inl ⟨by decide, by decide⟩),
    settleIndividual_void carrySettings [0, 1] 0 voidHole (by decide)]

/-- Claim C7 (amended): the engine substitutes the default target 4 exactly
when the par is missing or is a number below 3; any numeric par that is at
least 3 — integer or not — is used as given. -/
theorem par_default_rule (v : ℚ) :
    (3 ≤ v → parOfHole (some v) = v) ∧
    (v < 3 → parOfHole (some v) = 4) ∧
    parOfHole none = 4 := by
  refine ⟨fun h => ?_, fun h => ?_, rfl⟩
  · simp only [parOfHole]
    rw [if_pos h]
  · simp only [parOfHole]
    rw [if_neg (not_le.mpr h)]

/-- Witness for C7 (amended) at pars 5 and 2. -/
theorem par_default_rule_witness :
    parOfHole (some 5) = 5 ∧ parOfHole (some 2) = 4 :=
  ⟨(par_default_rule 5).1 (by norm_num), (par_default_rule 2).2.1 (by norm_num)⟩

/-- Counterexample to C7 as stated: the par 7/2 is not an integer, so the
claim calls it invalid and requires the substitute 4; the engine instead uses
7/2 as given, observably changing the stake multiplier (birdie double fires at
a winning best of 5/2 against par 7/2, but not against par 4). -/
theorem par_non_integer_used :
    (¬ ∃ k : ℤ, ((7 : ℚ) / 2) = (k : ℚ)) ∧
    parOfHole (some ((7 : ℚ) / 2)) = (7 : ℚ) / 2 ∧
    parOfHole (some ((7 : ℚ) / 2)) ≠ 4 ∧
    stakeForScore sampleSettings (parOfHole (some ((7 : ℚ) / 2))) 0 (5 / 2) = 2 ∧
    stakeForScore sampleSettings 4 0 (5 / 2) = 1 := by
  have h32 : (3 : ℚ) ≤ 7 / 2 := by norm_num
  have hpar : parOfHole (some ((7 : ℚ) / 2)) = (7 : ℚ) / 2 := by
    simp only [parOfHole]
    rw [if_pos h32]
  refine ⟨?_, hpar, ?_, ?_, ?_⟩
  · rintro ⟨k, hk⟩
    have h7 : (7 : ℚ) = 2 * (k : ℚ) := by
      field_simp at hk
      linarith
    have h7' : (7 : ℤ) = 2 * k := by exact_mod_cast h7
    omega
  · rw [hpar]
    norm_num
  · rw [hpar]
    simp only [stakeForScore]
    norm_num [sampleSettings]
  · simp only [stakeForScore]
    norm_num [sampleSettings]

/-! ### Linearity of the payouts in the wager -/

/-- Replace the wager of a settings record. -/
def setWager (s : Settings) (w : ℚ) : Settings := { s with wager := w }

theorem addAt_smul (w : ℚ) (l : List ℚ) (i : ℕ) (c : ℚ) :
    addAt (l.map (w * ·)) i (w * c) = (addAt l i c).map (w * ·) := by
  induction l generalizing i with
  | nil => rfl
  | cons x xs ih =>
    cases i with
    | zero => simp [addAt, mul_add]
    | succ n => simp [addAt, ih]

theorem foldAdd_smul (w c : ℚ) (P : List ℕ) (r : List ℚ) :
    foldAdd (w * c) P (r.map (w * ·)) = (foldAdd c P r).map (w * ·) := by
  induction P generalizing r with
  | nil => rfl
  | cons a P ih => rw [foldAdd_cons, foldAdd_cons, addAt_smul, ih]

theorem indPayout_smul (w : ℚ) (win : ℕ) (stake : ℚ) (P : List ℕ) (r : List ℚ) :
    indPayout win (w * stake) P (r.map (w * ·)) = (indPayout win stake P r).map (w * ·) := by
  induction P generalizing r with
  | nil => rfl
  | cons a P ih =>
    rw [indPayout_cons, indPayout_cons]
    by_cases haw : a = win
    · rw [if_pos haw, if_pos haw, ih]
    · rw [if_neg haw, if_neg haw]
      have hneg : -(w * stake) = w * (-stake) := by ring
      rw [hneg, addAt_smul, addAt_smul, ih]

theorem replicate_map_smul (w : ℚ) (n : ℕ) :
    (List.replicate n (0 : ℚ)).map (w * ·) = List.replicate n 0 := by
  simp [List.map_replicate]

theorem stakeForScore_smul (s : Settings) (w : ℚ) (par : ℚ) (c : ℕ) (b : ℚ) :
    stakeForScore (setWager s w) par c b = w * stakeForScore (setWager s 1) par c b := by
  simp only [stakeForScore, setWager]
  ring

theorem perWinnerGainFn_smul (w stk : ℚ) (W L : ℕ) :
    perWinnerGainFn (w * stk) W L = w * perWinnerGainFn stk W L := by
  unfold perWinnerGainFn
  split <;> ring

theorem perLoserLossFn_smul (w stk : ℚ) (W L : ℕ) :
    perLoserLossFn (w * stk) W L = w * perLoserLossFn stk W L := by
  unfold perLoserLossFn
  split <;> ring

theorem teamPayout_smul (s : Settings) (w : ℚ) (n : ℕ) (winners losers : List ℕ)
    (stake : ℚ) :
    teamPayout s n winners losers (w * stake) =
      (teamPayout s n winners losers stake).map (w * ·) := by
  unfold teamPayout
  have h1 : dblFactor s winners.length losers.length *
      perWinnerGainFn (w * stake) winners.length losers.length =
        w * (dblFactor s winners.length losers.length *
          perWinnerGainFn stake winners.length losers.length) := by
    rw [perWinnerGainFn_smul]
    ring
  have h2 : -(dblFactor s winners.length losers.length *
      perLoserLossFn (w * stake) winners.length losers.length) =
        w * (-(dblFactor s winners.length losers.length *
          perLoserLossFn stake winners.length losers.length)) := by
    rw [perLoserLossFn_smul]
    ring
  rw [h1, h2, ← replicate_map_smul w n, foldAdd_smul, foldAdd_smul, replicate_map_smul]

theorem settleHole_smul (s : Settings) (w : ℚ) (aIdx : List ℕ) (c : ℕ) (hole : HoleState) :
    settleHole (setWager s w) aIdx c hole =
      ((settleHole (setWager s 1) aIdx c hole).1.map (w * ·),
       (settleHole (setWager s 1) aIdx c hole).2) := by
  by_cases honly : (teamIdxs hole.teamPicks aIdx TeamPick.T1 ≠ [] ∧
      teamIdxs hole.teamPicks aIdx TeamPick.T2 = []) ∨
      (teamIdxs hole.teamPicks aIdx TeamPick.T2 ≠ [] ∧
      teamIdxs hole.teamPicks aIdx TeamPick.T1 = [])
  · rw [settleHole_onlyOne _ aIdx c hole honly, settleHole_onlyOne _ aIdx c hole honly]
    cases hb : teamBest hole.scores aIdx (indParticipants hole.teamPicks aIdx) with
    | none =>
      rw [settleIndividual_void _ aIdx c hole hb, settleIndividual_void _ aIdx c hole hb]
      dsimp only
      rw [replicate_map_smul]
    | some best =>
      by_cases hlen : (bestHolders hole.teamPicks hole.scores aIdx best).length = 1
      · obtain ⟨win, hwe⟩ := List.length_eq_one.mp hlen
        rw [settleIndividual_settled _ aIdx c hole best win hb hwe,
          settleIndividual_settled _ aIdx c hole best win hb hwe]
        dsimp only
        rw [stakeForScore_smul, ← replicate_map_smul w aIdx.length, indPayout_smul,
          replicate_map_smul]
      · rw [settleIndividual_tie _ aIdx c hole best hb hlen,
          settleIndividual_tie _ aIdx c hole best hb hlen]
        dsimp only
        rw [replicate_map_smul]
        rfl
  · by_cases hdeg : teamIdxs hole.teamPicks aIdx TeamPick.T1 = [] ∨
        teamIdxs hole.teamPicks aIdx TeamPick.T2 = []
    · have hboth : teamIdxs hole.teamPicks aIdx TeamPick.T1 = [] ∧
          teamIdxs hole.teamPicks aIdx TeamPick.T2 = [] := by
        rcases hdeg with h | h
        · by_cases h2 : teamIdxs hole.teamPicks aIdx TeamPick.T2 = []
          · exact ⟨h, h2⟩
          · exact absurd (Or.inr ⟨h2, h⟩) honly
        · by_cases h1 : teamIdxs hole.teamPicks aIdx TeamPick.T1 = []
          · exact ⟨h1, h⟩
          · exact absurd (Or.inl ⟨h1, h⟩) honly
      rw [settleHole_degenerate _ aIdx c hole hboth.1 hboth.2,
        settleHole_degenerate _ aIdx c hole hboth.1 hboth.2]
      dsimp only
      rw [replicate_map_smul]
    · push_neg at hdeg
      rw [settleHole_bothTeams _ aIdx c hole hdeg.1 hdeg.2,
        settleHole_bothTeams _ aIdx c hole hdeg.1 hdeg.2]
      cases hb1 : teamBest hole.scores aIdx (teamIdxs hole.teamPicks aIdx TeamPick.T1) with
      | none =>
        rw [settleTeams_void _ aIdx c hole (Or.inl hb1),
          settleTeams_void _ aIdx c hole (Or.inl hb1)]
        dsimp only
        rw [replicate_map_smul]
      | some b1 =>
        cases hb2 : teamBest hole.scores aIdx (teamIdxs hole.teamPicks aIdx TeamPick.T2) with
        | none =>
          rw [settleTeams_void _ aIdx c hole (Or.inr hb2),
            settleTeams_void _ aIdx c hole (Or.inr hb2)]
          dsimp only
          rw [replicate_map_smul]
        | some b2 =>
          by_cases heq : b1 = b2
          · subst heq
            rw [settleTeams_tie _ aIdx c hole b1 hb1 hb2,
              settleTeams_tie _ aIdx c hole b1 hb1 hb2]
            dsimp only
            rw [replicate_map_smul]
            rfl
          · rw [settleTeams_settled _ aIdx c hole b1 b2 hb1 hb2 heq,
              settleTeams_settled _ aIdx c hole b1 b2 hb1 hb2 heq]
            dsimp only
            rw [stakeForScore_smul]
            have hsame : teamPayout (setWager s w) aIdx.length
                (winnersOf hole.teamPicks aIdx b1 b2) (losersOf hole.teamPicks aIdx b1 b2)
                (stakeForScore (setWager s 1) (parOfHole hole.par) c (min b1 b2)) =
              teamPayout (setWager s 1) aIdx.length
                (winnersOf hole.teamPicks aIdx b1 b2) (losersOf hole.teamPicks aIdx b1 b2)
                (stakeForScore (setWager s 1) (parOfHole hole.par) c (min b1 b2)) := rfl
            rw [teamPayout_smul, hsame]

theorem computeDeltasAux_smul (s : Settings) (w : ℚ) (aIdx : List ℕ) (c : ℕ)
    (holes : List HoleState) :
    computeDeltasAux (setWager s w) aIdx c holes =
      (computeDeltasAux (setWager s 1) aIdx c holes).map (List.map (w * ·)) := by
  induction holes generalizing c with
  | nil => rfl
  | cons hole holes ih =>
    rw [computeDeltasAux_cons, computeDeltasAux_cons, List.map_cons,
      settleHole_smul s w aIdx c hole]
    dsimp only
    rw [ih]

theorem zipWith_map_smul (w : ℚ) (a b : List ℚ) :
    List.zipWith (· + ·) (a.map (w * ·)) (b.map (w * ·)) =
      (List.zipWith (· + ·) a b).map (w * ·) := by
  induction a generalizing b with
  | nil => rfl
  | cons x xs ih =>
    cases b with
    | nil => rfl
    | cons y ys => simp [ih, mul_add]

theorem foldl_zip_map_smul (w : ℚ) (rows : List (List ℚ)) (acc : List ℚ) :
    (rows.map (List.map (w * ·))).foldl (fun a r => List.zipWith (· + ·) a r)
        (acc.map (w * ·)) =
      (rows.foldl (fun a r => List.zipWith (· + ·) a r) acc).map (w * ·) := by
  induction rows generalizing acc with
  | nil => rfl
  | cons r rows ih =>
    simp only [List.map_cons, List.foldl_cons]
    rw [zipWith_map_smul, ih]

theorem map_zero_smul (r : List ℚ) : r.map ((0 : ℚ) * ·) = List.replicate r.length 0 := by
  induction r with
  | nil => rfl
  | cons x xs ih => simp [ih, List.replicate_succ]

theorem totalsOf_smul (w : ℚ) (deltas : List (List ℚ)) (n : ℕ) :
    totalsOf (deltas.map (List.map (w * ·))) n = (totalsOf deltas n).map (w * ·) := by
  unfold totalsOf
  conv_lhs => rw [← replicate_map_smul w n]
  exact foldl_zip_map_smul w deltas (List.replicate n 0)

/-- Claim C10: the delta matrix and totals scale linearly in the wager — for
any settings they equal the wager times the result of the same inputs at
wager 1; the carry counter produced by any round never depends on the wager;
wager 0 yields the all-zero delta matrix. -/
theorem wager_linear (holes : List HoleState) (s : Settings) (players : List String) :
    (computeDeltas holes s players).deltas =
      ((computeDeltas holes (setWager s 1) players).deltas).map
        (List.map (s.wager * ·)) ∧
    (computeDeltas holes s players).totals =
      ((computeDeltas holes (setWager s 1) players).totals).map (s.wager * ·) ∧
    (∀ (w w' : ℚ) (aIdx : List ℕ) (c : ℕ) (hole : HoleState),
      (settleHole (setWager s w) aIdx c hole).2 =
        (settleHole (setWager s w') aIdx c hole).2) ∧
    (computeDeltas holes (setWager s 0) players).deltas =
      List.replicate holes.length (List.replicate (activeIdxOf players).length 0) := by
  have hd : computeDeltasAux s (activeIdxOf players) 0 holes =
      (computeDeltasAux (setWager s 1) (activeIdxOf players) 0 holes).map
        (List.map (s.wager * ·)) :=
    computeDeltasAux_smul s s.wager (activeIdxOf players) 0 holes
  refine ⟨hd, ?_, ?_, ?_⟩
  · show totalsOf (computeDeltasAux s (activeIdxOf players) 0 holes)
        (activeIdxOf players).length = _
    rw [hd, totalsOf_smul]
    rfl
  · intro w w' aIdx c hole
    have h1 := congrArg Prod.snd (settleHole_smul s w aIdx c hole)
    have h2 := congrArg Prod.snd (settleHole_smul s w' aIdx c hole)
    exact h1.trans h2.symm
  · show computeDeltasAux (setWager s 0) (activeIdxOf players) 0 holes = _
    rw [computeDeltasAux_smul s 0 (activeIdxOf players) 0 holes]
    apply List.eq_replicate_iff.mpr
    constructor
    · rw [List.length_map]
      exact computeDeltasAux_length _ _ 0 holes
    · intro b hb
      obtain ⟨r, hr, rfl⟩ := List.mem_map.mp hb
      rw [map_zero_smul, (computeDeltasAux_mem _ _ 0 holes r hr).1]

/-!
### The variant implementation of `src/unnamed/part_000`

Same hole loop, with three differences in the source: no `soloDouble` option,
par fallback `hole.par || 4` (only a par of 0 is replaced), and the payout
loops written as losers-then-winner(s) with the winner credited in one step.
The team/score loops are byte-for-byte the same code, so they reuse the
shared helper definitions above.
-/

namespace Part000

/-- `type Settings` of `src/unnamed/part_000` (no `soloDouble`). -/
structure Settings where
  wager : ℚ
  carryOver : Bool
  birdieDouble : Bool
  eagleTriple : Bool
  deriving DecidableEq, Repr

/-- `type HoleState` of `src/unnamed/part_000`: the par is a plain number. -/
structure HoleState where
  par : ℚ
  teamPicks : List TeamPick
  scores : List (Option ℚ)
  deriving DecidableEq, Repr

/-- `const par = hole.par || 4` — only the falsy par 0 is replaced. -/
def parOf (p : ℚ) : ℚ := if p = 0 then 4 else p

/-- `computeBaseStake` from `src/unnamed/part_000` lines 112–119. -/
def computeBaseStake (s : Settings) (par : ℚ) (carry : ℕ) (winningBest : ℚ) : ℚ :=
  let units : ℚ := 1 + (if s.carryOver then (carry : ℚ) else 0)
  let rel : ℚ := winningBest - par
  let multiplier : ℚ :=
    if s.eagleTriple ∧ rel ≤ -2 then 3
    else if s.birdieDouble ∧ rel = -1 then 2
    else 1
  s.wager * units * multiplier

/-- `perLoser = baseStake * (W > L ? W / L : 1)` (line 183). -/
def perLoserFn (base : ℚ) (W L : ℕ) : ℚ :=
  base * (if L < W then (W : ℚ) / (L : ℚ) else 1)

/-- `perWinner = baseStake * (L > W ? L / W : 1)` (line 184). -/
def perWinnerFn (base : ℚ) (W L : ℕ) : ℚ :=
  base * (if W < L then (L : ℚ) / (W : ℚ) else 1)

/-- Individual-mode settlement of `src/unnamed/part_000` lines 121–149:
losers (`participants.filter(aj => aj !== winner)`) each pay the base stake,
and the winner is credited `baseStake × losers.length` in one step. -/
def settleIndividual (s : Settings) (activeIdx : List ℕ) (carry : ℕ) (hole : HoleState) :
    List ℚ × ℕ :=
  match teamBest hole.scores activeIdx (indParticipants hole.teamPicks activeIdx) with
  | none => (List.replicate activeIdx.length 0, carry)
  | some best =>
    if (bestHolders hole.teamPicks hole.scores activeIdx best).length = 1 then
      (addAt
        (foldAdd (-(computeBaseStake s (parOf hole.par) carry best))
          ((indParticipants hole.teamPicks activeIdx).filter
            fun aj => aj ≠ (bestHolders hole.teamPicks hole.scores activeIdx best).headD 0)
          (List.replicate activeIdx.length 0))
        ((bestHolders hole.teamPicks hole.scores activeIdx best).headD 0)
        (computeBaseStake s (parOf hole.par) carry best *
          ((indParticipants hole.teamPicks activeIdx).filter
            fun aj => aj ≠ (bestHolders hole.teamPicks hole.scores activeIdx best).headD 0).length),
        0)
    else
      (List.replicate activeIdx.length 0, if s.carryOver then carry + 1 else carry)

/-- Two-sided settlement of `src/unnamed/part_000` lines 151–189: losers are
debited first, winners credited second. -/
def settleTeams (s : Settings) (activeIdx : List ℕ) (carry : ℕ) (hole : HoleState) :
    List ℚ × ℕ :=
  match teamBest hole.scores activeIdx (teamIdxs hole.teamPicks activeIdx TeamPick.T1),
      teamBest hole.scores activeIdx (teamIdxs hole.teamPicks activeIdx TeamPick.T2) with
  | some b1, some b2 =>
    if b1 = b2 then
      (List.replicate activeIdx.length 0, if s.carryOver then carry + 1 else carry)
    else
      if winnersOf hole.teamPicks activeIdx b1 b2 = [] ∨
          losersOf hole.teamPicks activeIdx b1 b2 = [] then
        (List.replicate activeIdx.length 0, carry)
      else
        (foldAdd
          (perWinnerFn (computeBaseStake s (parOf hole.par) carry (min b1 b2))
            (winnersOf hole.teamPicks activeIdx b1 b2).length
            (losersOf hole.teamPicks activeIdx b1 b2).length)
          (winnersOf hole.teamPicks activeIdx b1 b2)
          (foldAdd
            (-(perLoserFn (computeBaseStake s (parOf hole.par) carry (min b1 b2))
              (winnersOf hole.teamPicks activeIdx b1 b2).length
              (losersOf hole.teamPicks activeIdx b1 b2).length))
            (losersOf hole.teamPicks activeIdx b1 b2)
            (List.replicate activeIdx.length 0)), 0)
  | _, _ => (List.replicate activeIdx.length 0, carry)

/-- One iteration of the hole loop of `src/unnamed/part_000`. -/
def settleHole (s : Settings) (activeIdx : List ℕ) (carry : ℕ) (hole : HoleState) :
    List ℚ × ℕ :=
  if (teamIdxs hole.teamPicks activeIdx TeamPick.T1 ≠ [] ∧
        teamIdxs hole.teamPicks activeIdx TeamPick.T2 = []) ∨
      (teamIdxs hole.teamPicks activeIdx TeamPick.T2 ≠ [] ∧
        teamIdxs hole.teamPicks activeIdx TeamPick.T1 = []) then
    settleIndividual s activeIdx carry hole
  else if teamIdxs hole.teamPicks activeIdx TeamPick.T1 = [] ∨
      teamIdxs hole.teamPicks activeIdx TeamPick.T2 = [] then
    (List.replicate activeIdx.length 0, carry)
  else
    settleTeams s activeIdx carry hole

/-- The hole loop of `src/unnamed/part_000`. -/
def computeDeltasAux (s : Settings) (activeIdx : List ℕ) :
    ℕ → List HoleState → List (List ℚ)
  | _, [] => []
  | carry, hole :: holes =>
    (settleHole s activeIdx carry hole).1 ::
      computeDeltasAux s activeIdx (settleHole s activeIdx carry hole).2 holes

/-- Result record of the variant's `computeDeltas` (`return { deltas, totals }`). -/
structure DeltasResult where
  deltas : List (List ℚ)
  totals : List ℚ
  deriving DecidableEq, Repr

/-- `computeDeltas` from `src/unnamed/part_000` lines 92–195.  The active-slot
filter `p && p.trim()` coincides with the trim test of `activeIdxOf`. -/
def computeDeltas (holes : List HoleState) (s : Settings) (players : List String) :
    DeltasResult :=
  { deltas := computeDeltasAux s (activeIdxOf players) 0 holes
    totals := totalsOf (computeDeltasAux s (activeIdxOf players) 0 holes)
      (activeIdxOf players).length }

end Part000

/-- View a variant hole as a hole of the primary implementation (its par is
always a recorded number). -/
def liftHole (h : Part000.HoleState) : HoleState :=
  { par := some h.par, teamPicks := h.teamPicks, scores := h.scores }

/-! ### Reduction lemmas for the variant implementation -/

theorem part000_settleHole_onlyOne (s : Part000.Settings) (aIdx : List ℕ) (c : ℕ)
    (hole : Part000.HoleState)
    (h : (teamIdxs hole.teamPicks aIdx TeamPick.T1 ≠ [] ∧
          teamIdxs hole.teamPicks aIdx TeamPick.T2 = []) ∨
         (teamIdxs hole.teamPicks aIdx TeamPick.T2 ≠ [] ∧
          teamIdxs hole.teamPicks aIdx TeamPick.T1 = [])) :
    Part000.settleHole s aIdx c hole = Part000.settleIndividual s aIdx c hole := by
  unfold Part000.settleHole
  rw [if_pos h]

theorem part000_settleHole_bothTeams (s : Part000.Settings) (aIdx : List ℕ) (c : ℕ)
    (hole : Part000.HoleState)
    (h1 : teamIdxs hole.teamPicks aIdx TeamPick.T1 ≠ [])
    (h2 : teamIdxs hole.teamPicks aIdx TeamPick.T2 ≠ []) :
    Part000.settleHole s aIdx c hole = Part000.settleTeams s aIdx c hole := by
  have hA : ¬ ((teamIdxs hole.teamPicks aIdx TeamPick.T1 ≠ [] ∧
        teamIdxs hole.teamPicks aIdx TeamPick.T2 = []) ∨
      (teamIdxs hole.teamPicks aIdx TeamPick.T2 ≠ [] ∧
        teamIdxs hole.teamPicks aIdx TeamPick.T1 = [])) := by
    simp [h1, h2]
  have hB : ¬ (teamIdxs hole.teamPicks aIdx TeamPick.T1 = [] ∨
      teamIdxs hole.teamPicks aIdx TeamPick.T2 = []) := by
    simp [h1, h2]
  unfold Part000.settleHole
  rw [if_neg hA, if_neg hB]

theorem part000_settleHole_degenerate (s : Part000.Settings) (aIdx : List ℕ) (c : ℕ)
    (hole : Part000.HoleState)
    (h1 : teamIdxs hole.teamPicks aIdx TeamPick.T1 = [])
    (h2 : teamIdxs hole.teamPicks aIdx TeamPick.T2 = []) :
    Part000.settleHole s aIdx c hole = (List.replicate aIdx.length 0, c) := by
  have hA : ¬ ((teamIdxs hole.teamPicks aIdx TeamPick.T1 ≠ [] ∧
        teamIdxs hole.teamPicks aIdx TeamPick.T2 = []) ∨
      (teamIdxs hole.teamPicks aIdx TeamPick.T2 ≠ [] ∧
        teamIdxs hole.teamPicks aIdx TeamPick.T1 = [])) := by
    simp [h1, h2]
  unfold Part000.settleHole
  rw [if_neg hA, if_pos (Or.inl h1)]

theorem part000_settleIndividual_void (s : Part000.Settings) (aIdx : List ℕ) (c : ℕ)
    (hole : Part000.HoleState)
    (hb : teamBest hole.scores aIdx (indParticipants hole.teamPicks aIdx) = none) :
    Part000.settleIndividual s aIdx c hole = (List.replicate aIdx.length 0, c) := by
  unfold Part000.settleIndividual
  rw [hb]

theorem part000_settleIndividual_tie (s : Part000.Settings) (aIdx : List ℕ) (c : ℕ)
    (hole : Part000.HoleState) (best : ℚ)
    (hbest : teamBest hole.scores aIdx (indParticipants hole.teamPicks aIdx) = some best)
    (hlen : (bestHolders hole.teamPicks hole.scores aIdx best).length ≠ 1) :
    Part000.settleIndividual s aIdx c hole =
      (List.replicate aIdx.length 0, if s.carryOver then c + 1 else c) := by
  unfold Part000.settleIndividual
  rw [hbest]
  simp [hlen]

theorem part000_settleIndividual_settled (s : Part000.Settings) (aIdx : List ℕ) (c : ℕ)
    (hole : Part000.HoleState) (best : ℚ) (w : ℕ)
    (hbest : teamBest hole.scores aIdx (indParticipants hole.teamPicks aIdx) = some best)
    (hw : bestHolders hole.teamPicks hole.scores aIdx best = [w]) :
    Part000.settleIndividual s aIdx c hole =
      (addAt
        (foldAdd (-(Part000.computeBaseStake s (Part000.parOf hole.par) c best))
          ((indParticipants hole.teamPicks aIdx).filter fun aj => aj ≠ w)
          (List.replicate aIdx.length 0))
        w
        (Part000.computeBaseStake s (Part000.parOf hole.par) c best *
          ((indParticipants hole.teamPicks aIdx).filter fun aj => aj ≠ w).length), 0) := by
  unfold Part000.settleIndividual
  rw [hbest]
  simp [hw]

theorem part000_settleTeams_void (s : Part000.Settings) (aIdx : List ℕ) (c : ℕ)
    (hole : Part000.HoleState)
    (hb : teamBest hole.scores aIdx (teamIdxs hole.teamPicks aIdx TeamPick.T1) = none ∨
          teamBest hole.scores aIdx (teamIdxs hole.teamPicks aIdx TeamPick.T2) = none) :
    Part000.settleTeams s aIdx c hole = (List.replicate aIdx.length 0, c) := by
  unfold Part000.settleTeams
  rcases hb with hb | hb
  · rw [hb]
  · rw [hb]
    rcases teamBest hole.scores aIdx (teamIdxs hole.teamPicks aIdx TeamPick.T1)
      with _ | b1 <;> rfl

theorem part000_settleTeams_tie (s : Part000.Settings) (aIdx : List ℕ) (c : ℕ)
    (hole : Part000.HoleState) (b : ℚ)
    (hb1 : teamBest hole.scores aIdx (teamIdxs hole.teamPicks aIdx TeamPick.T1) = some b)
    (hb2 : teamBest hole.scores aIdx (teamIdxs hole.teamPicks aIdx TeamPick.T2) = some b) :
    Part000.settleTeams s aIdx c hole =
      (List.replicate aIdx.length 0, if s.carryOver then c + 1 else c) := by
  unfold Part000.settleTeams
  rw [hb1, hb2]
  simp

theorem part000_settleTeams_settled (s : Part000.Settings) (aIdx : List ℕ) (c : ℕ)
    (hole : Part000.HoleState) (b1 b2 : ℚ)
    (hb1 : teamBest hole.scores aIdx (teamIdxs hole.teamPicks aIdx TeamPick.T1) = some b1)
    (hb2 : teamBest hole.scores aIdx (teamIdxs hole.teamPicks aIdx TeamPick.T2) = some b2)
    (hne : b1 ≠ b2)
    (hW : winnersOf hole.teamPicks aIdx b1 b2 ≠ [])
    (hL : losersOf hole.teamPicks aIdx b1 b2 ≠ []) :
    Part000.settleTeams s aIdx c hole =
      (foldAdd
        (Part000.perWinnerFn (Part000.computeBaseStake s (Part000.parOf hole.par) c (min b1 b2))
          (winnersOf hole.teamPicks aIdx b1 b2).length
          (losersOf hole.teamPicks aIdx b1 b2).length)
        (winnersOf hole.teamPicks aIdx b1 b2)
        (foldAdd
          (-(Part000.perLoserFn (Part000.computeBaseStake s (Part000.parOf hole.par) c (min b1 b2))
            (winnersOf hole.teamPicks aIdx b1 b2).length
            (losersOf hole.teamPicks aIdx b1 b2).length))
          (losersOf hole.teamPicks aIdx b1 b2)
          (List.replicate aIdx.length 0)), 0) := by
  unfold Part000.settleTeams
  rw [hb1, hb2]
  simp [hne, hW, hL]

/-! ### Pointwise agreement of the two implementations -/

theorem computeBaseStake_eq (s : Settings) (s2 : Part000.Settings)
    (hw : s.wager = s2.wager) (hc : s.carryOver = s2.carryOver)
    (hb : s.birdieDouble = s2.birdieDouble) (he : s.eagleTriple = s2.eagleTriple)
    (par : ℚ) (c : ℕ) (b : ℚ) :
    stakeForScore s par c b = Part000.computeBaseStake s2 par c b := by
  simp only [stakeForScore, Part000.computeBaseStake, hw, hc, hb, he]

theorem perWinnerFn_eq (base : ℚ) (W L : ℕ) :
    Part000.perWinnerFn base W L = perWinnerGainFn base W L := by
  unfold Part000.perWinnerFn perWinnerGainFn
  rcases lt_trichotomy W L with h | h | h
  · rw [if_pos h, if_neg (not_le.mpr h)]
  · subst h
    rw [if_neg (lt_irrefl W), if_pos le_rfl]
    ring
  · rw [if_neg (not_lt.mpr h.le), if_pos h.le]
    ring

theorem perLoserFn_eq (base : ℚ) (W L : ℕ) :
    Part000.perLoserFn base W L = perLoserLossFn base W L := by
  unfold Part000.perLoserFn perLoserLossFn
  by_cases h : L < W
  · rw [if_pos h, if_pos h]
  · rw [if_neg h, if_neg h]
    ring

theorem count_filter_ne_self (P : List ℕ) (w : ℕ) :
    (P.filter fun a => a ≠ w).count w = 0 := by
  rw [List.count_eq_zero]
  intro hmem
  have h := (List.mem_filter.mp hmem).2
  simp at h

theorem count_filter_ne_other (P : List ℕ) (w j : ℕ) (hj : j ≠ w) :
    (P.filter fun a => a ≠ w).count j = P.count j := by
  induction P with
  | nil => rfl
  | cons a P ih =>
    rw [List.filter_cons]
    by_cases haw : a ≠ w
    · rw [if_pos (by simpa using haw), List.count_cons, List.count_cons, ih]
    · rw [if_neg (by simpa using haw)]
      push_neg at haw
      subst haw
      rw [ih, List.count_cons]
      simp [hj, Ne.symm hj]

theorem indPayout_eq_filtered (P : List ℕ) (w : ℕ) (stake : ℚ) (n : ℕ)
    (hP : ∀ a ∈ P, a < n) (hwmem : w ∈ P) :
    indPayout w stake P (List.replicate n 0) =
      addAt (foldAdd (-stake) (P.filter fun a => a ≠ w) (List.replicate n 0)) w
        (stake * ((P.filter fun a => a ≠ w).length : ℚ)) := by
  have hwlt : w < n := hP w hwmem
  apply List.ext_getElem
  · rw [indPayout_length, addAt_length, foldAdd_length]
  · intro i h1 h2
    rw [← List.getD_eq_getElem _ 0 h1, ← List.getD_eq_getElem _ 0 h2]
    have hi : i < n := by
      rw [indPayout_length, List.length_replicate] at h1
      exact h1
    by_cases hiw : i = w
    · subst hiw
      rw [indPayout_getD_winner, addAt_getD, foldAdd_getD, getD_replicate_zero,
        List.length_replicate, foldAdd_length, List.length_replicate, count_filter_ne_self]
      simp [hi]
    · rw [indPayout_getD_other _ _ _ _ _ hiw, addAt_getD, foldAdd_getD, getD_replicate_zero,
        List.length_replicate, foldAdd_length, List.length_replicate,
        count_filter_ne_other _ _ _ hiw]
      simp [hi, hiw]

theorem foldAdd_comm_pair (g l : ℚ) (Wl Ll : List ℕ) (n : ℕ) :
    foldAdd l Ll (foldAdd g Wl (List.replicate n 0)) =
      foldAdd g Wl (foldAdd l Ll (List.replicate n 0)) := by
  apply List.ext_getElem
  · rw [foldAdd_length, foldAdd_length, List.length_replicate, foldAdd_length, foldAdd_length,
      List.length_replicate]
  · intro i h1 h2
    rw [← List.getD_eq_getElem _ 0 h1, ← List.getD_eq_getElem _ 0 h2]
    simp only [foldAdd_getD, foldAdd_length, List.length_replicate, getD_replicate_zero]
    by_cases hi : i < n
    · simp [hi]
      ring
    · simp [hi]

theorem settleHole_eq_part000 (s : Settings) (s2 : Part000.Settings)
    (hw : s.wager = s2.wager) (hc : s.carryOver = s2.carryOver)
    (hbd : s.birdieDouble = s2.birdieDouble) (het : s.eagleTriple = s2.eagleTriple)
    (hsd : s.soloDouble = false)
    (aIdx : List ℕ) (c : ℕ) (h2 : Part000.HoleState) (hpar : 3 ≤ h2.par) :
    settleHole s aIdx c (liftHole h2) = Part000.settleHole s2 aIdx c h2 := by
  have htp : (liftHole h2).teamPicks = h2.teamPicks := rfl
  have hsc : (liftHole h2).scores = h2.scores := rfl
  have hpareq : parOfHole (liftHole h2).par = Part000.parOf h2.par := by
    have e1 : parOfHole (liftHole h2).par = h2.par := by
      show parOfHole (some h2.par) = h2.par
      simp only [parOfHole]
      rw [if_pos hpar]
    have e2 : Part000.parOf h2.par = h2.par := by
      unfold Part000.parOf
      rw [if_neg]
      intro h0
      rw [h0] at hpar
      norm_num at hpar
    rw [e1, e2]
  have hstake : ∀ b : ℚ, stakeForScore s (parOfHole (liftHole h2).par) c b =
      Part000.computeBaseStake s2 (Part000.parOf h2.par) c b := by
    intro b
    rw [hpareq, computeBaseStake_eq s s2 hw hc hbd het]
  by_cases honly : (teamIdxs h2.teamPicks aIdx TeamPick.T1 ≠ [] ∧
      teamIdxs h2.teamPicks aIdx TeamPick.T2 = []) ∨
      (teamIdxs h2.teamPicks aIdx TeamPick.T2 ≠ [] ∧
      teamIdxs h2.teamPicks aIdx TeamPick.T1 = [])
  · rw [settleHole_onlyOne s aIdx c (liftHole h2) honly,
      part000_settleHole_onlyOne s2 aIdx c h2 honly]
    cases hbq : teamBest h2.scores aIdx (indParticipants h2.teamPicks aIdx) with
    | none =>
      rw [settleIndividual_void s aIdx c (liftHole h2) hbq,
        part000_settleIndividual_void s2 aIdx c h2 hbq]
    | some best =>
      by_cases hlen : (bestHolders h2.teamPicks h2.scores aIdx best).length = 1
      · obtain ⟨w0, hw0⟩ := List.length_eq_one.mp hlen
        rw [settleIndividual_settled s aIdx c (liftHole h2) best w0 hbq hw0,
          part000_settleIndividual_settled s2 aIdx c h2 best w0 hbq hw0, hstake best]
        have hmemw : w0 ∈ indParticipants h2.teamPicks aIdx :=
          bestHolders_subset _ _ _ _ (hw0 ▸ List.mem_singleton_self w0)
        exact congrArg (fun r => (r, 0))
          (indPayout_eq_filtered (indParticipants h2.teamPicks aIdx) w0 _ aIdx.length
            (fun a ha => indParticipants_mem_lt _ _ _ ha) hmemw)
      · rw [settleIndividual_tie s aIdx c (liftHole h2) best hbq hlen,
          part000_settleIndividual_tie s2 aIdx c h2 best hbq hlen, hc]
  · by_cases hdeg : teamIdxs h2.teamPicks aIdx TeamPick.T1 = [] ∨
        teamIdxs h2.teamPicks aIdx TeamPick.T2 = []
    · have hboth : teamIdxs h2.teamPicks aIdx TeamPick.T1 = [] ∧
          teamIdxs h2.teamPicks aIdx TeamPick.T2 = [] := by
        rcases hdeg with h | h
        · by_cases hx : teamIdxs h2.teamPicks aIdx TeamPick.T2 = []
          · exact ⟨h, hx⟩
          · exact absurd (Or.inr ⟨hx, h⟩) honly
        · by_cases hx : teamIdxs h2.teamPicks aIdx TeamPick.T1 = []
          · exact ⟨hx, h⟩
          · exact absurd (Or.inl ⟨hx, h⟩) honly
      rw [settleHole_degenerate s aIdx c (liftHole h2) hboth.1 hboth.2,
        part000_settleHole_degenerate s2 aIdx c h2 hboth.1 hboth.2]
    · push_neg at hdeg
      rw [settleHole_bothTeams s aIdx c (liftHole h2) hdeg.1 hdeg.2,
        part000_settleHole_bothTeams s2 aIdx c h2 hdeg.1 hdeg.2]
      cases hb1 : teamBest h2.scores aIdx (teamIdxs h2.teamPicks aIdx TeamPick.T1) with
      | none =>
        rw [settleTeams_void s aIdx c (liftHole h2) (Or.inl hb1),
          part000_settleTeams_void s2 aIdx c h2 (Or.inl hb1)]
      | some b1 =>
        cases hb2 : teamBest h2.scores aIdx (teamIdxs h2.teamPicks aIdx TeamPick.T2) with
        | none =>
          rw [settleTeams_void s aIdx c (liftHole h2) (Or.inr hb2),
            part000_settleTeams_void s2 aIdx c h2 (Or.inr hb2)]
        | some b2 =>
          by_cases heq : b1 = b2
          · subst heq
            rw [settleTeams_tie s aIdx c (liftHole h2) b1 hb1 hb2,
              part000_settleTeams_tie s2 aIdx c h2 b1 hb1 hb2, hc]
          · rw [settleTeams_settled s aIdx c (liftHole h2) b1 b2 hb1 hb2 heq,
              part000_settleTeams_settled s2 aIdx c h2 b1 b2 hb1 hb2 heq
                (winnersOf_ne_nil _ _ _ _ hdeg.1 hdeg.2)
                (losersOf_ne_nil _ _ _ _ hdeg.1 hdeg.2)]
            unfold teamPayout
            have hdbl : dblFactor s (winnersOf h2.teamPicks aIdx b1 b2).length
                (losersOf h2.teamPicks aIdx b1 b2).length = 1 := by
              unfold dblFactor
              rw [if_neg]
              rintro ⟨hx, -⟩
              rw [hsd] at hx
              exact Bool.false_ne_true hx
            rw [htp, hdbl, one_mul, one_mul, hstake (min b1 b2), perWinnerFn_eq,
              perLoserFn_eq]
            exact congrArg (fun r => (r, 0))
              (foldAdd_comm_pair
                (perWinnerGainFn
                  (Part000.computeBaseStake s2 (Part000.parOf h2.par) c (min b1 b2))
                  (winnersOf h2.teamPicks aIdx b1 b2).length
                  (losersOf h2.teamPicks aIdx b1 b2).length)
                (-(perLoserLossFn
                  (Part000.computeBaseStake s2 (Part000.parOf h2.par) c (min b1 b2))
                  (winnersOf h2.teamPicks aIdx b1 b2).length
                  (losersOf h2.teamPicks aIdx b1 b2).length))
                (winnersOf h2.teamPicks aIdx b1 b2)
                (losersOf h2.teamPicks aIdx b1 b2)
                aIdx.length)

theorem part000_computeDeltasAux_cons (s : Part000.Settings) (aIdx : List ℕ) (c : ℕ)
    (hole : Part000.HoleState) (holes : List Part000.HoleState) :
    Part000.computeDeltasAux s aIdx c (hole :: holes) =
      (Part000.settleHole s aIdx c hole).1 ::
        Part000.computeDeltasAux s aIdx (Part000.settleHole s aIdx c hole).2 holes := rfl

theorem computeDeltasAux_eq_part000 (s : Settings) (s2 : Part000.Settings)
    (hw : s.wager = s2.wager) (hc : s.carryOver = s2.carryOver)
    (hbd : s.birdieDouble = s2.birdieDouble) (het : s.eagleTriple = s2.eagleTriple)
    (hsd : s.soloDouble = false) (aIdx : List ℕ) (holes2 : List Part000.HoleState)
    (hpars : ∀ h ∈ holes2, 3 ≤ h.par) (c : ℕ) :
    computeDeltasAux s aIdx c (holes2.map liftHole) =
      Part000.computeDeltasAux s2 aIdx c holes2 := by
  revert hpars
  induction holes2 generalizing c with
  | nil =>
    intro _
    rfl
  | cons h2 t ih =>
    intro hpars
    rw [List.map_cons, computeDeltasAux_cons, part000_computeDeltasAux_cons,
      settleHole_eq_part000 s s2 hw hc hbd het hsd aIdx c h2
        (hpars h2 (List.mem_cons_self h2 t)),
      ih _ (fun h hh => hpars h (List.mem_cons_of_mem h2 hh))]

/-- Claim C9: for rosters and hole lists whose pars are all at least 3, and
settings agreeing on wager, carry-over, birdie-double and eagle-triple with
the solo-double option disabled, the two `computeDeltas` implementations
(`src/src/App.tsx` and `src/unnamed/part_000`) return identical delta
matrices and identical totals vectors. -/
theorem implementations_agree (s : Settings) (s2 : Part000.Settings)
    (players : List String) (holes2 : List Part000.HoleState)
    (hw : s.wager = s2.wager) (hc : s.carryOver = s2.carryOver)
    (hbd : s.birdieDouble = s2.birdieDouble) (het : s.eagleTriple = s2.eagleTriple)
    (hsd : s.soloDouble = false)
    (hpars : ∀ h ∈ holes2, 3 ≤ h.par) :
    (computeDeltas (holes2.map liftHole) s players).deltas =
      (Part000.computeDeltas holes2 s2 players).deltas ∧
    (computeDeltas (holes2.map liftHole) s players).totals =
      (Part000.computeDeltas holes2 s2 players).totals := by
  have hd := computeDeltasAux_eq_part000 s s2 hw hc hbd het hsd (activeIdxOf players)
    holes2 hpars 0
  exact ⟨hd, by
    show totalsOf (computeDeltasAux s (activeIdxOf players) 0 (holes2.map liftHole))
        (activeIdxOf players).length = _
    rw [hd]
    rfl⟩

/-- Variant-implementation settings agreeing with `equivSettings` below. -/
def p000Settings : Part000.Settings :=
  { wager := 1, carryOver := true, birdieDouble := true, eagleTriple := true }

/-- Primary-implementation settings for the C9 witness: solo-double off. -/
def equivSettings : Settings :=
  { wager := 1, carryOver := true, soloDouble := false, birdieDouble := true,
    eagleTriple := true }

/-- A concrete variant hole with par 4. -/
def p000Hole : Part000.HoleState :=
  { par := 4, teamPicks := [TeamPick.T1, TeamPick.T2, TeamPick.T2],
    scores := [some 3, some 5, some 6] }

/-- Witness for C9 on a concrete one-hole match. -/
theorem implementations_agree_witness :
    (computeDeltas ([p000Hole].map liftHole) equivSettings ["A", "B", "C"]).deltas =
      (Part000.computeDeltas [p000Hole] p000Settings ["A", "B", "C"]).deltas ∧
    (computeDeltas ([p000Hole].map liftHole) equivSettings ["A", "B", "C"]).totals =
      (Part000.computeDeltas [p000Hole] p000Settings ["A", "B", "C"]).totals :=
  implementations_agree equivSettings p000Settings ["A", "B", "C"] [p000Hole]
    rfl rfl rfl rfl rfl
    (by
      intro h hh
      rw [List.mem_singleton.mp hh]
      norm_num [p000Hole])
